import Mathlib

/-!
Shallow embedding of the DevOverflow content-consistency core:
the vote ledger (src/lib/actions/vote.action.ts), the question/tag
reconciler (src/lib/actions/createQuestion.action.ts,
src/lib/actions/editQuestion.action.ts) and the shared action boundary
(src/unnamed/part_014, the `action` handler) with the error formatter
(src/lib/handlers/error.ts, src/lib/http-errors.ts).

The document store is embedded as explicit lists of records; every server
action becomes a pure function from a database state (plus the ambient
session) to an `Except` value: `Except.error e` models a rejected promise
(an exception escaping the operation), `Except.ok (db, resp)` models a
normal return of `resp` with committed state `db`.  A MongoDB transaction
that aborts returns the original state.
-/

deriving instance DecidableEq for Except

namespace DevOverflow

/-- ASCII lowercasing of one character, as JavaScript's `toLowerCase`
acts on the ASCII tag names in scope here. -/
def lowerChar (c : Char) : Char :=
  if 'A' ≤ c ∧ c ≤ 'Z' then Char.ofNat (c.toNat + 32) else c

/-- `String.prototype.toLowerCase()` on ASCII strings. -/
def lowerString (s : String) : String := ⟨s.data.map lowerChar⟩

/-- Vote type, `'upvote' | 'downvote'` in vote.action.ts. -/
inductive VoteType where
  | upvote
  | downvote
deriving DecidableEq

/-- Target type, `'question' | 'answer'` in vote.action.ts. -/
inductive TargetType where
  | question
  | answer
deriving DecidableEq

/-- Modelled from the spec: the mongoose Vote model file is not under
`src/`.  Field names follow their use in vote.action.ts
(`author`, `actionId`, `actionType`, `voteType`); the spec lists the same
fields under the names `author`, `targetId`, `targetType`, `voteType`. -/
structure Vote where
  id : Nat
  author : Nat
  actionId : Nat
  actionType : TargetType
  voteType : VoteType
deriving DecidableEq

/-- Modelled from the spec: the mongoose Question model file is not under
`src/`.  Fields follow spec section 3 (`title`, `content`, `author`,
`tags`, `answers`, `views`, `upvotes`, `downvotes`); counters default
to zero on creation. -/
structure Question where
  id : Nat
  title : String
  content : String
  author : Nat
  tags : List Nat
  answers : Int
  views : Int
  upvotes : Int
  downvotes : Int
deriving DecidableEq

/-- Modelled from the spec: the mongoose Answer model file is not under
`src/`.  Only the fields the vote ledger touches are carried. -/
structure Answer where
  id : Nat
  question : Nat
  author : Nat
  content : String
  upvotes : Int
  downvotes : Int
deriving DecidableEq

/-- Modelled from the spec: the mongoose Tag model file is not under
`src/`.  The usage counter is called `questions` in the action code
(`$inc: { questions: 1 }`); the spec calls it `usageCount`. -/
structure Tag where
  id : Nat
  name : String
  questions : Int
deriving DecidableEq

/-- Modelled from the spec: the mongoose TagQuestion join model file is not
under `src/`; it is the Question-Tag Link of spec section 3. -/
structure TagQuestion where
  tag : Nat
  question : Nat
deriving DecidableEq

/-- The document store: one list per collection plus a fresh-id counter
standing for MongoDB ObjectId generation. -/
structure DB where
  questions : List Question
  answers : List Answer
  votes : List Vote
  tags : List Tag
  tagQuestions : List TagQuestion
  nextId : Nat
deriving DecidableEq

/-- `Model.findById` / `findOne({_id})`: first (in MongoDB: unique)
document with the given id. -/
def findDoc {α : Type} (idOf : α → Nat) (l : List α) (i : Nat) : Option α :=
  l.find? (fun x => decide (idOf x = i))

/-- `Model.findByIdAndUpdate`: rewrite the document with the given id
(the first one, which in MongoDB is unique); no-op when absent. -/
def updateDoc {α : Type} (idOf : α → Nat) : List α → Nat → (α → α) → List α
  | [], _, _ => []
  | x :: xs, i, f => if idOf x = i then f x :: xs else x :: updateDoc idOf xs i f

/-- `Model.findByIdAndDelete` / `deleteOne({_id})`: remove the document
with the given id (the first one, which in MongoDB is unique). -/
def deleteDoc {α : Type} (idOf : α → Nat) : List α → Nat → List α
  | [], _ => []
  | x :: xs, i => if idOf x = i then xs else x :: deleteDoc idOf xs i

/-- The thrown-error taxonomy of src/lib/http-errors.ts plus plain
`Error`; `status` and `message` are what handleError's formatResponse
surfaces for each class. -/
inductive JsError where
  | validation (message : String)
  | unauthorized (message : String)
  | forbidden (message : String)
  | notFound (resource : String)
  | generic (message : String)
deriving DecidableEq

def JsError.status : JsError → Nat
  | .validation _ => 400
  | .unauthorized _ => 401
  | .forbidden _ => 403
  | .notFound _ => 404
  | .generic _ => 500

def JsError.message : JsError → String
  | .validation m => m
  | .unauthorized m => m
  | .forbidden m => m
  | .notFound r => r ++ " not found"
  | .generic m => m

/-- The `ActionResponse` shape of the action files: `success`, optional
`data`, optional `error.message`; `status` is the top-level status field
added by handleError's formatResponse for the server response type. -/
structure ActionResponse (α : Type) where
  success : Bool
  status : Option Nat
  data : Option α
  error : Option String
deriving DecidableEq

/-- `{ success: true }`. -/
def okResponse {α : Type} : ActionResponse α := ⟨true, none, none, none⟩

/-- `{ success: true, data }`. -/
def okData {α : Type} (a : α) : ActionResponse α := ⟨true, none, some a, none⟩

/-- `handleError` of src/lib/handlers/error.ts for the server response
type: `{ status, success: false, error: { message } }`. -/
def handleError {α : Type} (e : JsError) : ActionResponse α :=
  ⟨false, some e.status, none, some e.message⟩

/-- A next-auth session as the actions consume it: `session?.user?.id`. -/
structure Sess where
  userId : Option Nat
deriving DecidableEq

/-- `await auth()`: the ambient session or `null`. -/
def Auth : Type := Option Sess

/-- The `action` handler of src/unnamed/part_014.  It validates, checks
the session, connects, and returns the session — but on a validation
failure or a missing session it THROWS (`throw new ValidationError`,
`throw new UnauthorizedError`), it does not return the error value, so
here a failure is `Except.error`.  When `authorize` is false the session
is left `null`. -/
def action (auth : Auth) (authorize : Bool) (valid : Bool) :
    Except JsError (Option Sess) :=
  if !valid then .error (.validation "Validation failed")
  else if authorize && (Option.isNone auth) then .error (.unauthorized "Unauthorized")
  else .ok (if authorize then auth else none)

/-! ### Vote ledger (src/lib/actions/vote.action.ts) -/

structure CreateVoteParams where
  targetId : Nat
  targetType : TargetType
  voteType : VoteType
deriving DecidableEq

structure UpdateVoteCountParams where
  targetId : Nat
  targetType : TargetType
  voteType : VoteType
  change : Int
deriving DecidableEq

structure HasVotedParams where
  targetId : Nat
  targetType : TargetType
deriving DecidableEq

structure HasVotedResponse where
  hasUpvoted : Bool
  hasDownvoted : Bool
deriving DecidableEq

/-- Modelled from the spec: src/lib/validations.ts is not under `src/`.
The spec describes validation as rejecting malformed input (missing
fields, bad enum values); the embedded vote parameter records are
well-formed by construction, so these schemas accept every value. -/
def CreateVoteSchema_parses (_p : CreateVoteParams) : Bool := true

/-- Modelled from the spec: src/lib/validations.ts is not under `src/`;
see `CreateVoteSchema_parses`. -/
def UpdateVoteCountSchema_parses (_p : UpdateVoteCountParams) : Bool := true

/-- Modelled from the spec: src/lib/validations.ts is not under `src/`;
see `CreateVoteSchema_parses`. -/
def HasVotedSchema_parses (_p : HasVotedParams) : Bool := true

/-- Increment a question's counter field selected by the vote type:
`const voteField = voteType === 'upvote' ? 'upvotes' : 'downvotes'`
followed by `$inc: { [voteField]: change }`. -/
def incQuestion (vt : VoteType) (c : Int) (q : Question) : Question :=
  match vt with
  | .upvote => { q with upvotes := q.upvotes + c }
  | .downvote => { q with downvotes := q.downvotes + c }

/-- Same `$inc` on an answer document. -/
def incAnswer (vt : VoteType) (c : Int) (a : Answer) : Answer :=
  match vt with
  | .upvote => { a with upvotes := a.upvotes + c }
  | .downvote => { a with downvotes := a.downvotes + c }

/-- `updateVoteCount` of vote.action.ts.  Its `action` call has no
`authorize` and its schema accepts well-formed params, so it never
rejects here; `findByIdAndUpdate` returns `null` when the target is
missing, which the function converts into a failure response without
touching the store. -/
def updateVoteCount (db : DB) (p : UpdateVoteCountParams) :
    DB × ActionResponse Unit :=
  match p.targetType with
  | .question =>
    match findDoc Question.id db.questions p.targetId with
    | none => (db, handleError (.generic "Failed to update vote count"))
    | some _ =>
      ({ db with questions := (updateDoc Question.id db.questions p.targetId
          (incQuestion p.voteType p.change)) },
        okResponse)
  | .answer =>
    match findDoc Answer.id db.answers p.targetId with
    | none => (db, handleError (.generic "Failed to update vote count"))
    | some _ =>
      ({ db with answers := (updateDoc Answer.id db.answers p.targetId
          (incAnswer p.voteType p.change)) },
        okResponse)

/-- `removeVote` of vote.action.ts: delete the vote row, then update the
counter.  The result of `updateVoteCount` is awaited but DISCARDED by the
source, so a failed counter update does not abort the caller. -/
def removeVote (db : DB) (voteId : Nat) (p : UpdateVoteCountParams) : DB :=
  let db1 := { db with votes := deleteDoc Vote.id db.votes voteId }
  (updateVoteCount db1 p).1

/-- `newVoteType === 'upvote' ? 'downvote' : 'upvote'` in
`switchVoteType`. -/
def oppositeVote (vt : VoteType) : VoteType :=
  match vt with
  | .upvote => .downvote
  | .downvote => .upvote

/-- `switchVoteType` of vote.action.ts: rewrite the vote's type, subtract
one from the previous type's counter, add one to the new type's counter
(both `updateVoteCount` results discarded by the source). -/
def switchVoteType (db : DB) (voteId : Nat) (newVoteType : VoteType)
    (p : CreateVoteParams) : DB :=
  let db1 := { db with votes := (updateDoc Vote.id db.votes voteId
    (fun v => { v with voteType := newVoteType })) }
  let db2 := (updateVoteCount db1
    ⟨p.targetId, p.targetType, oppositeVote newVoteType, -1⟩).1
  (updateVoteCount db2 ⟨p.targetId, p.targetType, newVoteType, 1⟩).1

/-- `createNewVote` of vote.action.ts: insert a fresh vote row, then add
one to the matching counter (result discarded by the source). -/
def createNewVote (db : DB) (p : CreateVoteParams) (userId : Nat) : DB :=
  let v : Vote := ⟨db.nextId, userId, p.targetId, p.targetType, p.voteType⟩
  let db1 := { db with votes := db.votes ++ [v], nextId := db.nextId + 1 }
  (updateVoteCount db1 ⟨p.targetId, p.targetType, p.voteType, 1⟩).1

/-- The `Vote.findOne({author, actionId, actionType})` filter. -/
def voteFilter (userId : Nat) (p : CreateVoteParams) (v : Vote) : Bool :=
  decide (v.author = userId ∧ v.actionId = p.targetId ∧ v.actionType = p.targetType)

/-- `createVote` of vote.action.ts.  The `await action(...)` sits OUTSIDE
the try block and `action` throws on a validation failure or a missing
session, so those failures escape `createVote` as a rejected promise
(`Except.error`); the `validationResult instanceof Error` branch of the
source is unreachable.  A missing `session.user.id` with a present
session is converted to an error response before the transaction.  Inside
the transaction no step of this deterministic embedding throws, so the
transaction always commits. -/
def createVote (db : DB) (auth : Auth) (p : CreateVoteParams) :
    Except JsError (DB × ActionResponse Unit) :=
  match action auth true (CreateVoteSchema_parses p) with
  | .error e => .error e
  | .ok sess =>
    match sess.bind Sess.userId with
    | none => .ok (db, handleError (.generic "Unauthorized"))
    | some userId =>
      match db.votes.find? (voteFilter userId p) with
      | some v =>
        if v.voteType = p.voteType then
          .ok (removeVote db v.id ⟨p.targetId, p.targetType, p.voteType, -1⟩, okResponse)
        else
          .ok (switchVoteType db v.id p.voteType p, okResponse)
      | none => .ok (createNewVote db p userId, okResponse)

/-- `hasVoted` of vote.action.ts.  Like `createVote`, the `action` call is
outside any try/catch and `action` throws, so with no session the
UnauthorizedError escapes as a rejection: the graceful
`validationResult instanceof Error` branch of the source (which would
return both flags false) is unreachable.  The `findOne` filter drops an
undefined `author` field, mirroring mongoose stripping undefined query
values. -/
def hasVoted (db : DB) (auth : Auth) (p : HasVotedParams) :
    Except JsError (ActionResponse HasVotedResponse) :=
  match action auth true (HasVotedSchema_parses p) with
  | .error e => .error e
  | .ok sess =>
    let userId := sess.bind Sess.userId
    let vote := db.votes.find? (fun v =>
      (match userId with
       | some u => decide (v.author = u)
       | none => true)
      && decide (v.actionId = p.targetId ∧ v.actionType = p.targetType))
    match vote with
    | none => .ok ⟨true, none, some ⟨false, false⟩, none⟩
    | some v =>
      .ok ⟨true, none,
        some ⟨decide (v.voteType = .upvote), decide (v.voteType = .downvote)⟩, none⟩

/-! ### Question creation (src/lib/actions/createQuestion.action.ts) -/

structure CreateQuestionParams where
  title : String
  content : String
  tags : List String
deriving DecidableEq

/-- Modelled from the spec: src/lib/validations.ts is not under `src/`.
The spec describes the form input as a title, a body and one to three
free-text tags ("up to a small fixed maximum — 3 in the observed
configuration"), with missing required fields rejected. -/
def AskQuestionSchema_parses (p : CreateQuestionParams) : Bool :=
  decide (p.title ≠ "" ∧ p.content ≠ "" ∧ 1 ≤ p.tags.length ∧ p.tags.length ≤ 3
    ∧ ∀ t ∈ p.tags, t ≠ "")

/-- The case-insensitive regex filter
`{ name: { $regex: new RegExp('^' + tag + '$', 'i') } }` of `processTag`.
For tag strings free of regex metacharacters (every tag appearing in the
theorems below) the anchored pattern is exact equality ignoring case. -/
def ciEq (a b : String) : Bool := decide (lowerString a = lowerString b)

/-- `processTag` of createQuestion.action.ts (also the upsert inside
`processTagChanges` of editQuestion.action.ts): a single atomic
`Tag.findOneAndUpdate` with a case-insensitive name match, `$setOnInsert`
of the name and `$inc` of the `questions` counter, upserting when no tag
matches.  Returns the (new or updated) document, the tag collection
afterwards, and the next fresh id. -/
def processTag (tag : String) : List Tag → Nat → Tag × List Tag × Nat
  | [], nextId => (⟨nextId, tag, 1⟩, [⟨nextId, tag, 1⟩], nextId + 1)
  | t :: ts, nextId =>
    if ciEq t.name tag then
      ({ t with questions := t.questions + 1 },
        { t with questions := t.questions + 1 } :: ts, nextId)
    else
      let r := processTag tag ts nextId
      (r.1, t :: r.2.1, r.2.2)

/-- The `Promise.all(tags.map(tag => processTag(tag, session)))` of
`createTagRelations`: the upserts all run on one transaction session, so
they apply one after another; this embedding applies them left to right
and collects the resulting tag ids. -/
def processTags : List String → List Tag → Nat → List Nat × List Tag × Nat
  | [], tags, nextId => ([], tags, nextId)
  | n :: ns, tags, nextId =>
    let r := processTag n tags nextId
    let rest := processTags ns r.2.1 r.2.2
    (r.1.id :: rest.1, rest.2.1, rest.2.2)

/-- `createQuestion` of createQuestion.action.ts.  `action` (with
`authorize: true`) throws out of the operation on a validation failure or
missing session, and the explicit
`if (!userId) throw new Error('User not authenticated')` also sits
outside the try block, so both escape as rejections.  Inside the
transaction: create the question document, upsert the tags, insert the
TagQuestion links (`insertMany`), and `$push` the tag ids onto the
question's `tags` array; no step throws deterministically, so the
transaction commits. -/
def createQuestion (db : DB) (auth : Auth) (p : CreateQuestionParams) :
    Except JsError (DB × ActionResponse Question) :=
  match action auth true (AskQuestionSchema_parses p) with
  | .error e => .error e
  | .ok sess =>
    match sess.bind Sess.userId with
    | none => .error (.generic "User not authenticated")
    | some userId =>
      let q : Question := ⟨db.nextId, p.title, p.content, userId, [], 0, 0, 0, 0⟩
      let db1 : DB := { db with questions := db.questions ++ [q], nextId := db.nextId + 1 }
      let r := processTags p.tags db1.tags db1.nextId
      let db2 : DB := { db1 with
          tags := r.2.1,
          nextId := r.2.2,
          tagQuestions := db1.tagQuestions ++ r.1.map (fun i => ⟨i, q.id⟩) }
      let db3 : DB := { db2 with questions := (updateDoc Question.id db2.questions q.id
        (fun x => { x with tags := x.tags ++ r.1 })) }
      .ok (db3, okData q)

/-! ### Question editing (src/lib/actions/editQuestion.action.ts) -/

structure EditQuestionParams where
  title : String
  content : String
  tags : List String
  questionId : Nat
deriving DecidableEq

/-- Modelled from the spec: src/lib/validations.ts is not under `src/`;
same shape as `AskQuestionSchema_parses` plus the question id. -/
def EditQuestionSchema_parses (p : EditQuestionParams) : Bool :=
  decide (p.title ≠ "" ∧ p.content ≠ "" ∧ 1 ≤ p.tags.length ∧ p.tags.length ≤ 3
    ∧ ∀ t ∈ p.tags, t ≠ "")

/-- One iteration of the removal loop of `processTagChanges`
(editQuestion.action.ts): `t` is the tag as fetched in the snapshot
`Tag.find({_id: {$in: tagIdsToRemove}})` taken before the loop.
A snapshot count of exactly 0 deletes the tag outright; a positive count
decrements it and additionally deletes it when the pre-decrement count
was 1; a NEGATIVE count matches neither `=== 0` nor `> 0` and falls
through, leaving the stored tag untouched. -/
def removeTagStep (tags : List Tag) (t : Tag) : List Tag :=
  if t.questions = 0 then deleteDoc Tag.id tags t.id
  else if 0 < t.questions then
    if t.questions = 1 then
      deleteDoc Tag.id (updateDoc Tag.id tags t.id
        (fun x => { x with questions := x.questions - 1 })) t.id
    else
      updateDoc Tag.id tags t.id (fun x => { x with questions := x.questions - 1 })
  else tags

/-- The `for (const tag of tagsToUpdate)` removal loop of
`processTagChanges`, folded over the snapshot. -/
def processTagRemovals (snapshot : List Tag) (tags : List Tag) : List Tag :=
  snapshot.foldl removeTagStep tags

/-- `processTagChanges` of editQuestion.action.ts, applied to the store
`db` and the in-memory populated question document `q` (whose title and
content `updateQuestionContent` has already set).  Net effect of the
source's sequence of saves: lowercase the submitted names, diff against
the populated current tags, upsert the additions (with the LOWERCASED
names), run the removal loop on a snapshot of the removed tags, delete
the affected TagQuestion links, insert the new links, and persist the
question document with its final tag-id list, title and content. -/
def processTagChanges (db : DB) (q : Question) (newTags : List String)
    (questionId : Nat) : DB :=
  let normalizedNewTags := newTags.map lowerString
  let currentTags := q.tags.filterMap (fun i => findDoc Tag.id db.tags i)
  let tagsToAdd := normalizedNewTags.filter
    (fun n => !(currentTags.any (fun t => decide (lowerString t.name = n))))
  let tagsToRemove := currentTags.filter
    (fun t => !(normalizedNewTags.any (fun n => decide (n = lowerString t.name))))
  let r := processTags tagsToAdd db.tags db.nextId
  let tagIdsToRemove := tagsToRemove.map Tag.id
  let snapshot := r.2.1.filter (fun t => tagIdsToRemove.contains t.id)
  let tags2 := processTagRemovals snapshot r.2.1
  let tq2 := (db.tagQuestions.filter
      (fun l => !(tagIdsToRemove.contains l.tag && l.question == questionId)))
    ++ r.1.map (fun i => TagQuestion.mk i questionId)
  let qFinal := { q with tags := (q.tags ++ r.1).filter (fun i => !(tagIdsToRemove.contains i)) }
  { db with
    questions := updateDoc Question.id db.questions questionId (fun _ => qFinal),
    tags := tags2,
    tagQuestions := tq2,
    nextId := r.2.2 }

/-- `editQuestion` of editQuestion.action.ts.  As in `createVote`, the
`action` call sits outside the try block and throws, so a validation
failure or missing session rejects out of the operation.  Inside the
try block: load and populate the question, reject a missing question or a
non-author editor by THROWING a plain `Error` ('Question not found' /
'Unauthorized') which the catch converts via handleError (status 500)
after aborting the transaction, leaving the store unchanged; otherwise
apply `updateQuestionContent` and `processTagChanges` and commit. -/
def editQuestion (db : DB) (auth : Auth) (p : EditQuestionParams) :
    Except JsError (DB × ActionResponse Question) :=
  match action auth true (EditQuestionSchema_parses p) with
  | .error e => .error e
  | .ok sess =>
    let userId := sess.bind Sess.userId
    match findDoc Question.id db.questions p.questionId with
    | none => .ok (db, handleError (.generic "Question not found"))
    | some q =>
      if userId ≠ some q.author then .ok (db, handleError (.generic "Unauthorized"))
      else
        let q1 := { q with title := p.title, content := p.content }
        let dbA := { db with questions := updateDoc Question.id db.questions q.id (fun _ => q1) }
        let db2 := processTagChanges dbA q1 p.tags p.questionId
        .ok (db2, okData ((findDoc Question.id db2.questions p.questionId).getD q1))

/-! ### Result-state helpers -/

/-- Committed state of an operation outcome: a rejection never reaches
the transaction commit, so the store is unchanged. -/
def resultDB {α : Type} (db : DB) (r : Except JsError (DB × ActionResponse α)) : DB :=
  match r with
  | .error _ => db
  | .ok (db2, _) => db2

/-- Whether an operation returned (rather than rejected) with
`success: true`. -/
def succeeded {α : Type} (r : Except JsError (DB × ActionResponse α)) : Bool :=
  match r with
  | .error _ => false
  | .ok (_, resp) => resp.success

/-- Committed state of a `createVote` call. -/
def createVoteDB (db : DB) (auth : Auth) (p : CreateVoteParams) : DB :=
  resultDB db (createVote db auth p)

/-- Whether a vote row targets the given (target, targetType, voteType)
key. -/
def voteMatches (tid : Nat) (tt : TargetType) (vt : VoteType) (v : Vote) : Bool :=
  decide (v.actionId = tid ∧ v.actionType = tt ∧ v.voteType = vt)

/-- Number of live Vote records for a (target, targetType, voteType)
key: `count(Vote where target = this and voteType = vt)` of the spec's
counter/vote agreement invariant. -/
def countVotes (votes : List Vote) (tid : Nat) (tt : TargetType) (vt : VoteType) : Int :=
  ((votes.filter (voteMatches tid tt vt)).length : Int)

/-- The spec's counter/vote agreement invariant: every votable entity's
denormalized counters equal the number of live matching Vote records. -/
def voteAgreement (db : DB) : Prop :=
  (∀ q ∈ db.questions,
    q.upvotes = countVotes db.votes q.id .question .upvote
    ∧ q.downvotes = countVotes db.votes q.id .question .downvote)
  ∧ (∀ a ∈ db.answers,
    a.upvotes = countVotes db.votes a.id .answer .upvote
    ∧ a.downvotes = countVotes db.votes a.id .answer .downvote)

/-- Contribution of a single counter delta `c` on vote type `vt` to the
upvotes counter. -/
def upDelta (vt : VoteType) (c : Int) : Int :=
  match vt with
  | .upvote => c
  | .downvote => 0

/-- Contribution of a single counter delta `c` on vote type `vt` to the
downvotes counter. -/
def downDelta (vt : VoteType) (c : Int) : Int :=
  match vt with
  | .upvote => 0
  | .downvote => c

/-- The target entity's two denormalized counters moved by exactly
`(du, dd)` between states `db` and `r`, with every other document of the
votable collections and the whole tag state untouched: this is the
"exactly these counter deltas and no others" frame of the vote state
machine. -/
def counterShift (db r : DB) (tid : Nat) (tt : TargetType) (du dd : Int) : Prop :=
  (tt = .question →
    findDoc Question.id r.questions tid
      = (findDoc Question.id db.questions tid).map
          (fun q => { q with upvotes := q.upvotes + du, downvotes := q.downvotes + dd })
    ∧ (∀ j, j ≠ tid → findDoc Question.id r.questions j = findDoc Question.id db.questions j)
    ∧ r.answers = db.answers)
  ∧ (tt = .answer →
    findDoc Answer.id r.answers tid
      = (findDoc Answer.id db.answers tid).map
          (fun a => { a with upvotes := a.upvotes + du, downvotes := a.downvotes + dd })
    ∧ (∀ j, j ≠ tid → findDoc Answer.id r.answers j = findDoc Answer.id db.answers j)
    ∧ r.questions = db.questions)
  ∧ r.tags = db.tags ∧ r.tagQuestions = db.tagQuestions

/-! ### Example states used by the concrete theorems -/

/-- One question (id 1, author 7), empty other collections. -/
def exampleDB : DB := ⟨[⟨1, "T", "C", 7, [], 0, 0, 0, 0⟩], [], [], [], [], 100⟩

/-- Tag "javascript" with usage counter 5 already exists. -/
def mergeDB : DB := ⟨[], [], [], [⟨0, "javascript", 5⟩], [], 10⟩

/-- Question 10 (author 7) references tag 5 "react" whose usage counter
is already negative. -/
def negTagDB : DB :=
  ⟨[⟨10, "t", "c", 7, [5], 0, 0, 0, 0⟩], [], [], [⟨5, "react", -1⟩], [⟨5, 10⟩], 20⟩

/-- Question 10 (author 7) with no tags; the tag collection is empty. -/
def plainQuestionDB : DB := ⟨[⟨10, "t", "c", 7, [], 0, 0, 0, 0⟩], [], [], [], [], 20⟩

/-! ### Theorems -/

/-! #### Document-list lemmas -/

theorem findDoc_nil {α : Type} (idOf : α → Nat) (i : Nat) :
    findDoc idOf [] i = none := rfl

theorem ids_ne_of_not_mem {α : Type} (idOf : α → Nat) {z : α} {zs : List α} {i : Nat}
    (h : idOf z ∉ zs.map idOf) (hz : idOf z = i) : ∀ y ∈ zs, idOf y ≠ i := by
  intro y hy he
  apply h
  have hyz : idOf y = idOf z := by rw [he, hz]
  exact hyz ▸ List.mem_map_of_mem idOf hy

theorem findDoc_cons {α : Type} (idOf : α → Nat) (x : α) (xs : List α) (i : Nat) :
    findDoc idOf (x :: xs) i = if idOf x = i then some x else findDoc idOf xs i := by
  by_cases h : idOf x = i <;> simp [findDoc, List.find?_cons, h]

theorem findDoc_eq_none_iff {α : Type} (idOf : α → Nat) (l : List α) (i : Nat) :
    findDoc idOf l i = none ↔ ∀ y ∈ l, idOf y ≠ i := by
  induction l with
  | nil => simp [findDoc_nil]
  | cons x xs ih =>
    by_cases h : idOf x = i <;> simp [findDoc_cons, h, ih]

theorem findDoc_some_split {α : Type} (idOf : α → Nat) {l : List α} {i : Nat} {x : α}
    (h : findDoc idOf l i = some x) :
    ∃ l1 l2, l = l1 ++ x :: l2 ∧ (∀ y ∈ l1, idOf y ≠ i) ∧ idOf x = i := by
  induction l with
  | nil => simp [findDoc_nil] at h
  | cons z zs ih =>
    rw [findDoc_cons] at h
    by_cases hz : idOf z = i
    · simp [hz] at h
      exact ⟨[], zs, by simp [h], by simp, h ▸ hz⟩
    · simp [hz] at h
      obtain ⟨l1, l2, rfl, hl1, hx⟩ := ih h
      exact ⟨z :: l1, l2, rfl, by simpa [hz] using hl1, hx⟩

theorem findDoc_append_of_not_mem {α : Type} (idOf : α → Nat) {l1 : List α}
    (l2 : List α) {i : Nat} (h : ∀ y ∈ l1, idOf y ≠ i) :
    findDoc idOf (l1 ++ l2) i = findDoc idOf l2 i := by
  induction l1 with
  | nil => rfl
  | cons z zs ih =>
    have hz : idOf z ≠ i := h z (by simp)
    simp only [List.cons_append, findDoc_cons, hz, if_false]
    exact ih (fun y hy => h y (by simp [hy]))

theorem findDoc_mem {α : Type} (idOf : α → Nat) {l : List α} {i : Nat} {x : α}
    (h : findDoc idOf l i = some x) : x ∈ l ∧ idOf x = i := by
  obtain ⟨l1, l2, rfl, _, hx⟩ := findDoc_some_split idOf h
  exact ⟨by simp, hx⟩

theorem findDoc_of_nodup_mem {α : Type} (idOf : α → Nat) {l : List α} {x : α}
    (hn : (l.map idOf).Nodup) (hx : x ∈ l) : findDoc idOf l (idOf x) = some x := by
  induction l with
  | nil => simp at hx
  | cons z zs ih =>
    rw [List.map_cons, List.nodup_cons] at hn
    rcases List.mem_cons.mp hx with rfl | hx2
    · simp [findDoc_cons]
    · have hz : idOf z ≠ idOf x := by
        intro he
        exact hn.1 (he ▸ List.mem_map_of_mem idOf hx2)
      simp [findDoc_cons, hz, ih hn.2 hx2]

theorem updateDoc_of_none {α : Type} (idOf : α → Nat) {l : List α} {i : Nat}
    (f : α → α) (h : ∀ y ∈ l, idOf y ≠ i) : updateDoc idOf l i f = l := by
  induction l with
  | nil => rfl
  | cons z zs ih =>
    have hz : idOf z ≠ i := h z (by simp)
    simp only [updateDoc, hz, if_false]
    rw [ih (fun y hy => h y (by simp [hy]))]

theorem deleteDoc_of_none {α : Type} (idOf : α → Nat) {l : List α} {i : Nat}
    (h : ∀ y ∈ l, idOf y ≠ i) : deleteDoc idOf l i = l := by
  induction l with
  | nil => rfl
  | cons z zs ih =>
    have hz : idOf z ≠ i := h z (by simp)
    simp only [deleteDoc, hz, if_false]
    rw [ih (fun y hy => h y (by simp [hy]))]

theorem updateDoc_split {α : Type} (idOf : α → Nat) {l1 : List α} (l2 : List α)
    {i : Nat} {x : α} (f : α → α) (h1 : ∀ y ∈ l1, idOf y ≠ i) (h2 : idOf x = i) :
    updateDoc idOf (l1 ++ x :: l2) i f = l1 ++ f x :: l2 := by
  induction l1 with
  | nil => simp [updateDoc, h2]
  | cons z zs ih =>
    have hz : idOf z ≠ i := h1 z (by simp)
    simp only [List.cons_append, updateDoc, hz, if_false, List.append_eq]
    rw [ih (fun y hy => h1 y (by simp [hy]))]

theorem deleteDoc_split {α : Type} (idOf : α → Nat) {l1 : List α} (l2 : List α)
    {i : Nat} {x : α} (h1 : ∀ y ∈ l1, idOf y ≠ i) (h2 : idOf x = i) :
    deleteDoc idOf (l1 ++ x :: l2) i = l1 ++ l2 := by
  induction l1 with
  | nil => simp [deleteDoc, h2]
  | cons z zs ih =>
    have hz : idOf z ≠ i := h1 z (by simp)
    simp only [List.cons_append, deleteDoc, hz, if_false, List.append_eq]
    rw [ih (fun y hy => h1 y (by simp [hy]))]

theorem updateDoc_map_idOf {α : Type} (idOf : α → Nat) (f : α → α)
    (hf : ∀ y, idOf (f y) = idOf y) (l : List α) (i : Nat) :
    (updateDoc idOf l i f).map idOf = l.map idOf := by
  induction l with
  | nil => rfl
  | cons z zs ih =>
    by_cases hz : idOf z = i <;> simp [updateDoc, hz, hf, ih]

theorem deleteDoc_sublist {α : Type} (idOf : α → Nat) (l : List α) (i : Nat) :
    (deleteDoc idOf l i).Sublist l := by
  induction l with
  | nil => simp [deleteDoc]
  | cons z zs ih =>
    by_cases hz : idOf z = i
    · rw [show deleteDoc idOf (z :: zs) i = zs from by simp [deleteDoc, hz]]
      exact List.sublist_cons_self z zs
    · rw [show deleteDoc idOf (z :: zs) i = z :: deleteDoc idOf zs i from by
        simp [deleteDoc, hz]]
      exact List.Sublist.cons₂ z ih

theorem mem_of_mem_deleteDoc {α : Type} (idOf : α → Nat) {l : List α} {i : Nat}
    {x : α} (h : x ∈ deleteDoc idOf l i) : x ∈ l :=
  (deleteDoc_sublist idOf l i).mem h

theorem mem_of_mem_updateDoc {α : Type} (idOf : α → Nat) {l : List α} {i : Nat}
    {f : α → α} {x : α} (h : x ∈ updateDoc idOf l i f) :
    x ∈ l ∨ ∃ y ∈ l, idOf y = i ∧ x = f y := by
  induction l with
  | nil => simp [updateDoc] at h
  | cons z zs ih =>
    by_cases hz : idOf z = i
    · simp only [updateDoc, hz, if_true] at h
      rcases List.mem_cons.mp h with rfl | h2
      · exact Or.inr ⟨z, by simp, hz, rfl⟩
      · exact Or.inl (by simp [h2])
    · simp only [updateDoc, hz, if_false] at h
      rcases List.mem_cons.mp h with rfl | h2
      · exact Or.inl (by simp)
      · rcases ih h2 with h3 | ⟨y, hy, hyi, hxy⟩
        · exact Or.inl (by simp [h3])
        · exact Or.inr ⟨y, by simp [hy], hyi, hxy⟩

theorem findDoc_updateDoc_self {α : Type} (idOf : α → Nat) {l : List α} {i : Nat}
    {x : α} (f : α → α) (hf : ∀ y, idOf (f y) = idOf y)
    (h : findDoc idOf l i = some x) :
    findDoc idOf (updateDoc idOf l i f) i = some (f x) := by
  obtain ⟨l1, l2, rfl, hl1, hx⟩ := findDoc_some_split idOf h
  rw [updateDoc_split idOf l2 f hl1 hx,
    findDoc_append_of_not_mem idOf _ hl1, findDoc_cons]
  simp [hf, hx]

theorem findDoc_updateDoc_ne {α : Type} (idOf : α → Nat) {l : List α} {i j : Nat}
    (f : α → α) (hf : ∀ y, idOf (f y) = idOf y) (hij : j ≠ i) :
    findDoc idOf (updateDoc idOf l i f) j = findDoc idOf l j := by
  induction l with
  | nil => rfl
  | cons z zs ih =>
    by_cases hz : idOf z = i
    · have hij2 : i ≠ j := fun he => hij he.symm
      have hzj : idOf z ≠ j := by rw [hz] ; exact hij2
      simp [updateDoc, hz, findDoc_cons, hf, hzj, hij2]
    · by_cases hzj : idOf z = j <;> simp [updateDoc, hz, findDoc_cons, hzj, hij, ih]

theorem findDoc_deleteDoc_self {α : Type} (idOf : α → Nat) {l : List α} {i : Nat}
    (hn : (l.map idOf).Nodup) : findDoc idOf (deleteDoc idOf l i) i = none := by
  induction l with
  | nil => rfl
  | cons z zs ih =>
    rw [List.map_cons, List.nodup_cons] at hn
    by_cases hz : idOf z = i
    · simp only [deleteDoc, hz, if_true]
      exact (findDoc_eq_none_iff idOf zs i).mpr (ids_ne_of_not_mem idOf hn.1 hz)
    · simp [deleteDoc, hz, findDoc_cons, ih hn.2]

theorem findDoc_deleteDoc_ne {α : Type} (idOf : α → Nat) {l : List α} {i j : Nat}
    (hij : j ≠ i) : findDoc idOf (deleteDoc idOf l i) j = findDoc idOf l j := by
  induction l with
  | nil => rfl
  | cons z zs ih =>
    by_cases hz : idOf z = i
    · have hij2 : i ≠ j := fun he => hij he.symm
      have hzj : idOf z ≠ j := by rw [hz] ; exact hij2
      simp [deleteDoc, hz, findDoc_cons, hzj, hij2]
    · by_cases hzj : idOf z = j <;> simp [deleteDoc, hz, findDoc_cons, hzj, hij, ih]

theorem updateDoc_congr {α : Type} (idOf : α → Nat) {f g : α → α}
    (h : ∀ y, f y = g y) (l : List α) (i : Nat) :
    updateDoc idOf l i f = updateDoc idOf l i g := by
  induction l with
  | nil => rfl
  | cons z zs ih =>
    by_cases hz : idOf z = i <;> simp [updateDoc, hz, h, ih]

theorem updateDoc_updateDoc {α : Type} (idOf : α → Nat) {f : α → α}
    (hf : ∀ y, idOf (f y) = idOf y) (g : α → α) (l : List α) (i : Nat) :
    updateDoc idOf (updateDoc idOf l i f) i g = updateDoc idOf l i (fun y => g (f y)) := by
  induction l with
  | nil => rfl
  | cons z zs ih =>
    by_cases hz : idOf z = i <;> simp [updateDoc, hz, hf, ih]

theorem updateDoc_id_fun {α : Type} (idOf : α → Nat) (l : List α) (i : Nat) :
    updateDoc idOf l i (fun y => y) = l := by
  induction l with
  | nil => rfl
  | cons z zs ih =>
    by_cases hz : idOf z = i <;> simp [updateDoc, hz, ih]

theorem deleteDoc_append_fresh {α : Type} (idOf : α → Nat) {l : List α} {i : Nat}
    (x : α) (h : ∀ y ∈ l, idOf y ≠ i) (hx : idOf x = i) :
    deleteDoc idOf (l ++ [x]) i = l := by
  have hd := @deleteDoc_split α idOf l [] i x h hx
  simpa using hd

theorem deleteDoc_eq_filter {α : Type} (idOf : α → Nat) {l : List α} (i : Nat)
    (hn : (l.map idOf).Nodup) :
    deleteDoc idOf l i = l.filter (fun x => decide (idOf x ≠ i)) := by
  induction l with
  | nil => rfl
  | cons z zs ih =>
    rw [List.map_cons, List.nodup_cons] at hn
    by_cases hz : idOf z = i
    · simp only [deleteDoc, hz, if_true, List.filter_cons]
      have hzs : ∀ y ∈ zs, idOf y ≠ i := ids_ne_of_not_mem idOf hn.1 hz
      simp only [hz, decide_not, decide_eq_true_eq]
      rw [List.filter_eq_self.mpr]
      · simp
      · intro y hy
        simpa using hzs y hy
    · simp only [deleteDoc, hz, if_false, List.filter_cons]
      simp only [hz, decide_not, decide_eq_true_eq]
      rw [ih hn.2]
      simp [hz]

theorem updateDoc_eq_map {α : Type} (idOf : α → Nat) {l : List α} {f : α → α}
    (i : Nat) (_hf : ∀ y, idOf (f y) = idOf y) (hn : (l.map idOf).Nodup) :
    updateDoc idOf l i f = l.map (fun x => if idOf x = i then f x else x) := by
  induction l with
  | nil => rfl
  | cons z zs ih =>
    rw [List.map_cons, List.nodup_cons] at hn
    by_cases hz : idOf z = i
    · simp only [updateDoc, hz, if_true, List.map_cons]
      have hzs : ∀ y ∈ zs, idOf y ≠ i := ids_ne_of_not_mem idOf hn.1 hz
      have : zs.map (fun x => if idOf x = i then f x else x) = zs.map id := by
        apply List.map_congr_left
        intro y hy
        simp [hzs y hy]
      rw [this, List.map_id]
    · simp only [updateDoc, hz, if_false, List.map_cons, ih hn.2]

/-! #### Vote-ledger characterization lemmas -/

theorem incQuestion_id (vt : VoteType) (c : Int) (q : Question) :
    (incQuestion vt c q).id = q.id := by cases vt <;> rfl

theorem incAnswer_id (vt : VoteType) (c : Int) (a : Answer) :
    (incAnswer vt c a).id = a.id := by cases vt <;> rfl

theorem updateVoteCount_fst (db : DB) (p : UpdateVoteCountParams) :
    (updateVoteCount db p).1 =
      (match p.targetType with
        | .question =>
          { db with questions := (updateDoc Question.id db.questions p.targetId
              (incQuestion p.voteType p.change)) }
        | .answer =>
          { db with answers := (updateDoc Answer.id db.answers p.targetId
              (incAnswer p.voteType p.change)) }) := by
  obtain ⟨tid, tt, vt, c⟩ := p
  cases tt
  · cases hq : findDoc Question.id db.questions tid with
    | none =>
      rw [show (updateDoc Question.id db.questions tid (incQuestion vt c)) = db.questions from
        updateDoc_of_none Question.id _ ((findDoc_eq_none_iff _ _ _).mp hq)]
      simp [updateVoteCount, hq]
    | some q => simp [updateVoteCount, hq]
  · cases ha : findDoc Answer.id db.answers tid with
    | none =>
      rw [show (updateDoc Answer.id db.answers tid (incAnswer vt c)) = db.answers from
        updateDoc_of_none Answer.id _ ((findDoc_eq_none_iff _ _ _).mp ha)]
      simp [updateVoteCount, ha]
    | some a => simp [updateVoteCount, ha]

theorem updateVoteCount_snd (db : DB) (p : UpdateVoteCountParams) :
    (updateVoteCount db p).2 =
      (match p.targetType with
        | .question =>
          match findDoc Question.id db.questions p.targetId with
          | none => handleError (.generic "Failed to update vote count")
          | some _ => okResponse
        | .answer =>
          match findDoc Answer.id db.answers p.targetId with
          | none => handleError (.generic "Failed to update vote count")
          | some _ => okResponse) := by
  obtain ⟨tid, tt, vt, c⟩ := p
  cases tt
  · cases hq : findDoc Question.id db.questions tid <;> simp [updateVoteCount, hq]
  · cases ha : findDoc Answer.id db.answers tid <;> simp [updateVoteCount, ha]

/-- C10: a successful `updateVoteCount(targetId, targetType, voteType,
change)` call adjusts exactly the counter selected by voteType on the
target document by exactly `change`: the other counter and every other
field of the target are pinned by the record update, every other document
of the target collection is unchanged, and the other collections and the
id counter are untouched. -/
theorem C10_updateVoteCount_frame (db : DB) (p : UpdateVoteCountParams)
    (q : Question) (a : Answer) :
    (p.targetType = .question →
      findDoc Question.id db.questions p.targetId = some q →
      (updateVoteCount db p).2 = okResponse
      ∧ (p.voteType = .upvote →
          findDoc Question.id (updateVoteCount db p).1.questions p.targetId
            = some { q with upvotes := q.upvotes + p.change })
      ∧ (p.voteType = .downvote →
          findDoc Question.id (updateVoteCount db p).1.questions p.targetId
            = some { q with downvotes := q.downvotes + p.change })
      ∧ (∀ j, j ≠ p.targetId →
          findDoc Question.id (updateVoteCount db p).1.questions j
            = findDoc Question.id db.questions j)
      ∧ (updateVoteCount db p).1.answers = db.answers
      ∧ (updateVoteCount db p).1.votes = db.votes
      ∧ (updateVoteCount db p).1.tags = db.tags
      ∧ (updateVoteCount db p).1.tagQuestions = db.tagQuestions
      ∧ (updateVoteCount db p).1.nextId = db.nextId)
    ∧ (p.targetType = .answer →
      findDoc Answer.id db.answers p.targetId = some a →
      (updateVoteCount db p).2 = okResponse
      ∧ (p.voteType = .upvote →
          findDoc Answer.id (updateVoteCount db p).1.answers p.targetId
            = some { a with upvotes := a.upvotes + p.change })
      ∧ (p.voteType = .downvote →
          findDoc Answer.id (updateVoteCount db p).1.answers p.targetId
            = some { a with downvotes := a.downvotes + p.change })
      ∧ (∀ j, j ≠ p.targetId →
          findDoc Answer.id (updateVoteCount db p).1.answers j
            = findDoc Answer.id db.answers j)
      ∧ (updateVoteCount db p).1.questions = db.questions
      ∧ (updateVoteCount db p).1.votes = db.votes
      ∧ (updateVoteCount db p).1.tags = db.tags
      ∧ (updateVoteCount db p).1.tagQuestions = db.tagQuestions
      ∧ (updateVoteCount db p).1.nextId = db.nextId) := by
  obtain ⟨tid, tt, vt, c⟩ := p
  constructor
  · intro htt hq
    cases htt
    rw [updateVoteCount_snd, updateVoteCount_fst]
    simp only [hq]
    refine ⟨by trivial, ?_, ?_, ?_, by trivial, by trivial, by trivial, by trivial, by trivial⟩
    · intro hvt
      cases hvt
      exact findDoc_updateDoc_self Question.id (incQuestion .upvote c) (incQuestion_id .upvote c) hq
    · intro hvt
      cases hvt
      exact findDoc_updateDoc_self Question.id (incQuestion .downvote c) (incQuestion_id .downvote c) hq
    · intro j hj
      exact findDoc_updateDoc_ne Question.id (incQuestion vt c) (incQuestion_id vt c) hj
  · intro htt ha
    cases htt
    rw [updateVoteCount_snd, updateVoteCount_fst]
    simp only [ha]
    refine ⟨by trivial, ?_, ?_, ?_, by trivial, by trivial, by trivial, by trivial, by trivial⟩
    · intro hvt
      cases hvt
      exact findDoc_updateDoc_self Answer.id (incAnswer .upvote c) (incAnswer_id .upvote c) ha
    · intro hvt
      cases hvt
      exact findDoc_updateDoc_self Answer.id (incAnswer .downvote c) (incAnswer_id .downvote c) ha
    · intro j hj
      exact findDoc_updateDoc_ne Answer.id (incAnswer vt c) (incAnswer_id vt c) hj

/-- C10 witness: on the example state, incrementing the upvote counter of
question 1 by 1 succeeds, yields the question with upvotes 1 and all
other fields unchanged. -/
theorem C10_updateVoteCount_frame_witness :
    (updateVoteCount exampleDB ⟨1, .question, .upvote, 1⟩).2 = okResponse
    ∧ findDoc Question.id (updateVoteCount exampleDB ⟨1, .question, .upvote, 1⟩).1.questions 1
      = some ⟨1, "T", "C", 7, [], 0, 0, 1, 0⟩ := by
  have h := (C10_updateVoteCount_frame exampleDB ⟨1, .question, .upvote, 1⟩
    ⟨1, "T", "C", 7, [], 0, 0, 0, 0⟩ ⟨0, 0, 0, "", 0, 0⟩).1 rfl (by decide)
  exact ⟨h.1, (h.2.1 rfl).trans (by decide)⟩

theorem oppositeVote_of_ne {v w : VoteType} (h : v ≠ w) : oppositeVote w = v := by
  cases v <;> cases w <;> simp_all [oppositeVote]

theorem incQuestion_as_shift (vt : VoteType) (c : Int) (q : Question) :
    incQuestion vt c q
      = { q with
          upvotes := q.upvotes + upDelta vt c,
          downvotes := q.downvotes + downDelta vt c } := by
  cases vt <;> simp [incQuestion, upDelta, downDelta]

theorem incAnswer_as_shift (vt : VoteType) (c : Int) (a : Answer) :
    incAnswer vt c a
      = { a with
          upvotes := a.upvotes + upDelta vt c,
          downvotes := a.downvotes + downDelta vt c } := by
  cases vt <;> simp [incAnswer, upDelta, downDelta]

theorem incQuestion_comp_as_shift (vt1 vt2 : VoteType) (c1 c2 : Int) (q : Question) :
    incQuestion vt2 c2 (incQuestion vt1 c1 q)
      = { q with
          upvotes := q.upvotes + (upDelta vt1 c1 + upDelta vt2 c2),
          downvotes := q.downvotes + (downDelta vt1 c1 + downDelta vt2 c2) } := by
  cases vt1 <;> cases vt2 <;> simp [incQuestion, upDelta, downDelta, add_assoc]

theorem incAnswer_comp_as_shift (vt1 vt2 : VoteType) (c1 c2 : Int) (a : Answer) :
    incAnswer vt2 c2 (incAnswer vt1 c1 a)
      = { a with
          upvotes := a.upvotes + (upDelta vt1 c1 + upDelta vt2 c2),
          downvotes := a.downvotes + (downDelta vt1 c1 + downDelta vt2 c2) } := by
  cases vt1 <;> cases vt2 <;> simp [incAnswer, upDelta, downDelta, add_assoc]

theorem counterShift_of_updateDoc_question (db r : DB) (tid : Nat) (du dd : Int)
    (hq : r.questions = updateDoc Question.id db.questions tid
      (fun q => { q with upvotes := q.upvotes + du, downvotes := q.downvotes + dd }))
    (ha : r.answers = db.answers) (ht : r.tags = db.tags)
    (htq : r.tagQuestions = db.tagQuestions) :
    counterShift db r tid .question du dd := by
  refine ⟨?_, ?_, ht, htq⟩
  · intro _
    refine ⟨?_, ?_, ha⟩
    · rw [hq]
      cases hfd : findDoc Question.id db.questions tid with
      | none =>
        rw [updateDoc_of_none Question.id _ ((findDoc_eq_none_iff _ _ _).mp hfd), hfd]
        rfl
      | some q =>
        rw [findDoc_updateDoc_self Question.id
          (fun y => { y with upvotes := y.upvotes + du, downvotes := y.downvotes + dd })
          (fun _ => rfl) hfd]
        rfl
    · intro j hj
      rw [hq]
      exact findDoc_updateDoc_ne Question.id
        (fun y => { y with upvotes := y.upvotes + du, downvotes := y.downvotes + dd })
        (fun _ => rfl) hj
  · intro h
    exact absurd h (by simp)

theorem counterShift_of_updateDoc_answer (db r : DB) (tid : Nat) (du dd : Int)
    (ha : r.answers = updateDoc Answer.id db.answers tid
      (fun a => { a with upvotes := a.upvotes + du, downvotes := a.downvotes + dd }))
    (hq : r.questions = db.questions) (ht : r.tags = db.tags)
    (htq : r.tagQuestions = db.tagQuestions) :
    counterShift db r tid .answer du dd := by
  refine ⟨?_, ?_, ht, htq⟩
  · intro h
    exact absurd h (by simp)
  · intro _
    refine ⟨?_, ?_, hq⟩
    · rw [ha]
      cases hfd : findDoc Answer.id db.answers tid with
      | none =>
        rw [updateDoc_of_none Answer.id _ ((findDoc_eq_none_iff _ _ _).mp hfd), hfd]
        rfl
      | some a =>
        rw [findDoc_updateDoc_self Answer.id
          (fun y => { y with upvotes := y.upvotes + du, downvotes := y.downvotes + dd })
          (fun _ => rfl) hfd]
        rfl
    · intro j hj
      rw [ha]
      exact findDoc_updateDoc_ne Answer.id
        (fun y => { y with upvotes := y.upvotes + du, downvotes := y.downvotes + dd })
        (fun _ => rfl) hj

theorem createVote_auth_some (db : DB) (u : Nat) (p : CreateVoteParams) :
    createVote db (some ⟨some u⟩) p =
      (match db.votes.find? (voteFilter u p) with
        | some v =>
          if v.voteType = p.voteType then
            .ok (removeVote db v.id ⟨p.targetId, p.targetType, p.voteType, -1⟩, okResponse)
          else
            .ok (switchVoteType db v.id p.voteType p, okResponse)
        | none => .ok (createNewVote db p u, okResponse)) := rfl

theorem removeVote_eq (db : DB) (voteId : Nat) (p : UpdateVoteCountParams) :
    removeVote db voteId p =
      (match p.targetType with
        | .question =>
          { db with
              votes := deleteDoc Vote.id db.votes voteId,
              questions := (updateDoc Question.id db.questions p.targetId
                (incQuestion p.voteType p.change)) }
        | .answer =>
          { db with
              votes := deleteDoc Vote.id db.votes voteId,
              answers := (updateDoc Answer.id db.answers p.targetId
                (incAnswer p.voteType p.change)) }) := by
  obtain ⟨tid, tt, vt, c⟩ := p
  cases tt <;> simp [removeVote, updateVoteCount_fst]

theorem createNewVote_eq (db : DB) (p : CreateVoteParams) (u : Nat) :
    createNewVote db p u =
      (match p.targetType with
        | .question =>
          { db with
              votes := db.votes ++ [⟨db.nextId, u, p.targetId, .question, p.voteType⟩],
              nextId := db.nextId + 1,
              questions := (updateDoc Question.id db.questions p.targetId
                (incQuestion p.voteType 1)) }
        | .answer =>
          { db with
              votes := db.votes ++ [⟨db.nextId, u, p.targetId, .answer, p.voteType⟩],
              nextId := db.nextId + 1,
              answers := (updateDoc Answer.id db.answers p.targetId
                (incAnswer p.voteType 1)) }) := by
  obtain ⟨tid, tt, vt⟩ := p
  cases tt <;> simp [createNewVote, updateVoteCount_fst]

theorem switchVoteType_eq (db : DB) (voteId : Nat) (newVT : VoteType)
    (p : CreateVoteParams) :
    switchVoteType db voteId newVT p =
      (match p.targetType with
        | .question =>
          { db with
              votes := (updateDoc Vote.id db.votes voteId
                (fun v => { v with voteType := newVT })),
              questions := (updateDoc Question.id
                (updateDoc Question.id db.questions p.targetId
                  (incQuestion (oppositeVote newVT) (-1)))
                p.targetId (incQuestion newVT 1)) }
        | .answer =>
          { db with
              votes := (updateDoc Vote.id db.votes voteId
                (fun v => { v with voteType := newVT })),
              answers := (updateDoc Answer.id
                (updateDoc Answer.id db.answers p.targetId
                  (incAnswer (oppositeVote newVT) (-1)))
                p.targetId (incAnswer newVT 1)) }) := by
  obtain ⟨tid, tt, vt⟩ := p
  cases tt <;> simp [switchVoteType, updateVoteCount_fst]

/-- C2: createVote implements exactly the per-(user, target) vote state
machine.  With no existing vote it creates a Vote row of the requested
type and moves the matching counter by +1; with an existing vote of the
same type it deletes that vote row and moves that counter by -1; with an
existing vote of the opposite type it rewrites the vote's type, moves
the old type's counter by -1 and the new type's counter by +1 — and in
every case `counterShift` pins both counters to exactly these deltas and
everything else (other documents, other collections) to be untouched,
so no other counter deltas are issued. -/
theorem C2_createVote_state_machine (db : DB) (u : Nat) (p : CreateVoteParams)
    (hn : (db.votes.map Vote.id).Nodup) :
    succeeded (createVote db (some ⟨some u⟩) p) = true
    ∧ (db.votes.find? (voteFilter u p) = none →
        (createVoteDB db (some ⟨some u⟩) p).votes
          = db.votes ++ [⟨db.nextId, u, p.targetId, p.targetType, p.voteType⟩]
        ∧ counterShift db (createVoteDB db (some ⟨some u⟩) p) p.targetId p.targetType
            (upDelta p.voteType 1) (downDelta p.voteType 1))
    ∧ (∀ v, db.votes.find? (voteFilter u p) = some v → v.voteType = p.voteType →
        (createVoteDB db (some ⟨some u⟩) p).votes
          = db.votes.filter (fun w => decide (w.id ≠ v.id))
        ∧ counterShift db (createVoteDB db (some ⟨some u⟩) p) p.targetId p.targetType
            (upDelta p.voteType (-1)) (downDelta p.voteType (-1)))
    ∧ (∀ v, db.votes.find? (voteFilter u p) = some v → v.voteType ≠ p.voteType →
        (createVoteDB db (some ⟨some u⟩) p).votes
          = db.votes.map (fun w => if w.id = v.id then { w with voteType := p.voteType } else w)
        ∧ counterShift db (createVoteDB db (some ⟨some u⟩) p) p.targetId p.targetType
            (upDelta v.voteType (-1) + upDelta p.voteType 1)
            (downDelta v.voteType (-1) + downDelta p.voteType 1)) := by
  obtain ⟨tid, tt, vt⟩ := p
  refine ⟨?_, ?_, ?_, ?_⟩
  · rw [createVote_auth_some]
    cases hf : db.votes.find? (voteFilter u ⟨tid, tt, vt⟩) with
    | none => rfl
    | some v =>
      by_cases hvt : v.voteType = vt <;> simp [hvt, succeeded, okResponse]
  · intro hf
    have hdb : createVoteDB db (some ⟨some u⟩) ⟨tid, tt, vt⟩
        = createNewVote db ⟨tid, tt, vt⟩ u := by
      simp [createVoteDB, resultDB, createVote_auth_some, hf]
    rw [hdb, createNewVote_eq]
    cases tt
    · exact ⟨rfl, counterShift_of_updateDoc_question db _ tid _ _
        (updateDoc_congr Question.id (incQuestion_as_shift vt 1) db.questions tid)
        rfl rfl rfl⟩
    · exact ⟨rfl, counterShift_of_updateDoc_answer db _ tid _ _
        (updateDoc_congr Answer.id (incAnswer_as_shift vt 1) db.answers tid)
        rfl rfl rfl⟩
  · intro v hf hvt
    have hdb : createVoteDB db (some ⟨some u⟩) ⟨tid, tt, vt⟩
        = removeVote db v.id ⟨tid, tt, vt, -1⟩ := by
      simp [createVoteDB, resultDB, createVote_auth_some, hf, hvt]
    rw [hdb, removeVote_eq]
    cases tt
    · exact ⟨deleteDoc_eq_filter Vote.id v.id hn,
        counterShift_of_updateDoc_question db _ tid _ _
          (updateDoc_congr Question.id (incQuestion_as_shift vt (-1)) db.questions tid)
          rfl rfl rfl⟩
    · exact ⟨deleteDoc_eq_filter Vote.id v.id hn,
        counterShift_of_updateDoc_answer db _ tid _ _
          (updateDoc_congr Answer.id (incAnswer_as_shift vt (-1)) db.answers tid)
          rfl rfl rfl⟩
  · intro v hf hvt
    have hdb : createVoteDB db (some ⟨some u⟩) ⟨tid, tt, vt⟩
        = switchVoteType db v.id vt ⟨tid, tt, vt⟩ := by
      simp [createVoteDB, resultDB, createVote_auth_some, hf, hvt]
    have hop : oppositeVote vt = v.voteType := oppositeVote_of_ne (fun h => hvt h)
    rw [hdb, switchVoteType_eq, hop]
    cases tt
    · refine ⟨updateDoc_eq_map Vote.id v.id (fun _ => rfl) hn, ?_⟩
      refine counterShift_of_updateDoc_question db _ tid _ _ ?_ rfl rfl rfl
      show updateDoc Question.id
          (updateDoc Question.id db.questions tid (incQuestion v.voteType (-1)))
          tid (incQuestion vt 1)
        = updateDoc Question.id db.questions tid
            (fun q => { q with
              upvotes := q.upvotes + (upDelta v.voteType (-1) + upDelta vt 1),
              downvotes := q.downvotes + (downDelta v.voteType (-1) + downDelta vt 1) })
      rw [updateDoc_updateDoc Question.id (incQuestion_id v.voteType (-1)) _ _ _]
      exact updateDoc_congr Question.id
        (fun q => incQuestion_comp_as_shift v.voteType vt (-1) 1 q) db.questions tid
    · refine ⟨updateDoc_eq_map Vote.id v.id (fun _ => rfl) hn, ?_⟩
      refine counterShift_of_updateDoc_answer db _ tid _ _ ?_ rfl rfl rfl
      show updateDoc Answer.id
          (updateDoc Answer.id db.answers tid (incAnswer v.voteType (-1)))
          tid (incAnswer vt 1)
        = updateDoc Answer.id db.answers tid
            (fun a => { a with
              upvotes := a.upvotes + (upDelta v.voteType (-1) + upDelta vt 1),
              downvotes := a.downvotes + (downDelta v.voteType (-1) + downDelta vt 1) })
      rw [updateDoc_updateDoc Answer.id (incAnswer_id v.voteType (-1)) _ _ _]
      exact updateDoc_congr Answer.id
        (fun a => incAnswer_comp_as_shift v.voteType vt (-1) 1 a) db.answers tid

/-- C2 witness: on the example state (no existing vote), an upvote by
user 7 on question 1 succeeds, appends exactly the new vote row and
shifts the counters by (+1, 0). -/
theorem C2_createVote_state_machine_witness :
    succeeded (createVote exampleDB (some ⟨some 7⟩) ⟨1, .question, .upvote⟩) = true
    ∧ (createVoteDB exampleDB (some ⟨some 7⟩) ⟨1, .question, .upvote⟩).votes
      = exampleDB.votes ++ [⟨100, 7, 1, .question, .upvote⟩]
    ∧ counterShift exampleDB (createVoteDB exampleDB (some ⟨some 7⟩) ⟨1, .question, .upvote⟩)
        1 .question (upDelta .upvote 1) (downDelta .upvote 1) := by
  have h := C2_createVote_state_machine exampleDB 7 ⟨1, .question, .upvote⟩ (by decide)
  have h2 := h.2.1 (by decide)
  exact ⟨h.1, h2.1, h2.2⟩

theorem find?_append_of_none {α : Type} {l1 : List α} (l2 : List α) {p : α → Bool}
    (h : l1.find? p = none) : (l1 ++ l2).find? p = l2.find? p := by
  induction l1 with
  | nil => rfl
  | cons z zs ih =>
    cases hz : p z with
    | true =>
      rw [List.find?_cons_of_pos _ hz] at h
      exact absurd h (by simp)
    | false =>
      rw [List.find?_cons_of_neg _ (by simp [hz])] at h
      rw [List.cons_append, List.find?_cons_of_neg _ (by simp [hz])]
      exact ih h

theorem incQuestion_cancel (vt : VoteType) (q : Question) :
    incQuestion vt (-1) (incQuestion vt 1 q) = q := by
  cases vt <;> cases q <;> simp [incQuestion]

theorem incAnswer_cancel (vt : VoteType) (a : Answer) :
    incAnswer vt (-1) (incAnswer vt 1 a) = a := by
  cases vt <;> cases a <;> simp [incAnswer]

/-- C6: starting from NoVote for (user, target), two successful
consecutive createVote calls with the same voteType return the pair to
NoVote — afterwards no matching Vote record exists and the whole store
equals the initial store except for the consumed fresh id, so both the
upvote and the downvote counter have zero net change. -/
theorem C6_toggle_idempotence (db : DB) (u : Nat) (p : CreateVoteParams)
    (hfresh : ∀ v ∈ db.votes, v.id < db.nextId)
    (hf : db.votes.find? (voteFilter u p) = none) :
    succeeded (createVote db (some ⟨some u⟩) p) = true
    ∧ succeeded (createVote (createVoteDB db (some ⟨some u⟩) p) (some ⟨some u⟩) p) = true
    ∧ createVoteDB (createVoteDB db (some ⟨some u⟩) p) (some ⟨some u⟩) p
        = { db with nextId := db.nextId + 1 }
    ∧ (createVoteDB (createVoteDB db (some ⟨some u⟩) p) (some ⟨some u⟩) p).votes.find?
        (voteFilter u p) = none := by
  obtain ⟨tid, tt, vt⟩ := p
  have h1 : createVoteDB db (some ⟨some u⟩) ⟨tid, tt, vt⟩
      = createNewVote db ⟨tid, tt, vt⟩ u := by
    simp [createVoteDB, resultDB, createVote_auth_some, hf]
  cases tt
  case question =>
    have hdb1 : createVoteDB db (some ⟨some u⟩) ⟨tid, .question, vt⟩
        = { db with
            votes := db.votes ++ [⟨db.nextId, u, tid, .question, vt⟩],
            nextId := db.nextId + 1,
            questions := (updateDoc Question.id db.questions tid (incQuestion vt 1)) } := by
      rw [h1, createNewVote_eq]
    have hfind2 : (db.votes ++ [(⟨db.nextId, u, tid, .question, vt⟩ : Vote)]).find?
        (voteFilter u ⟨tid, .question, vt⟩)
        = some (⟨db.nextId, u, tid, .question, vt⟩ : Vote) := by
      rw [find?_append_of_none _ hf]
      exact List.find?_cons_of_pos _ (by simp [voteFilter])
    have hvotes2 : deleteDoc Vote.id (db.votes ++ [⟨db.nextId, u, tid, .question, vt⟩])
        db.nextId = db.votes :=
      deleteDoc_append_fresh Vote.id _ (fun y hy => Nat.ne_of_lt (hfresh y hy)) rfl
    have hqs2 : updateDoc Question.id
        (updateDoc Question.id db.questions tid (incQuestion vt 1)) tid
        (incQuestion vt (-1)) = db.questions := by
      rw [updateDoc_updateDoc Question.id (incQuestion_id vt 1) _ _ _,
        updateDoc_congr Question.id (fun q => incQuestion_cancel vt q) db.questions tid,
        updateDoc_id_fun]
    have h2 : createVoteDB (createVoteDB db (some ⟨some u⟩) ⟨tid, .question, vt⟩)
        (some ⟨some u⟩) ⟨tid, .question, vt⟩ = { db with nextId := db.nextId + 1 } := by
      rw [hdb1]
      simp only [createVoteDB, resultDB, createVote_auth_some, hfind2]
      rw [if_pos trivial, removeVote_eq]
      show ({ db with
          votes := deleteDoc Vote.id (db.votes ++ [⟨db.nextId, u, tid, .question, vt⟩]) db.nextId,
          nextId := db.nextId + 1,
          questions := (updateDoc Question.id
            (updateDoc Question.id db.questions tid (incQuestion vt 1)) tid
            (incQuestion vt (-1))) } : DB)
        = { db with nextId := db.nextId + 1 }
      rw [hvotes2, hqs2]
    refine ⟨?_, ?_, h2, ?_⟩
    · simp [succeeded, createVote_auth_some, hf, okResponse]
    · rw [hdb1]
      simp only [createVote_auth_some, hfind2]
      rw [if_pos trivial]
      rfl
    · rw [h2]
      exact hf
  case answer =>
    have hdb1 : createVoteDB db (some ⟨some u⟩) ⟨tid, .answer, vt⟩
        = { db with
            votes := db.votes ++ [⟨db.nextId, u, tid, .answer, vt⟩],
            nextId := db.nextId + 1,
            answers := (updateDoc Answer.id db.answers tid (incAnswer vt 1)) } := by
      rw [h1, createNewVote_eq]
    have hfind2 : (db.votes ++ [(⟨db.nextId, u, tid, .answer, vt⟩ : Vote)]).find?
        (voteFilter u ⟨tid, .answer, vt⟩)
        = some (⟨db.nextId, u, tid, .answer, vt⟩ : Vote) := by
      rw [find?_append_of_none _ hf]
      exact List.find?_cons_of_pos _ (by simp [voteFilter])
    have hvotes2 : deleteDoc Vote.id (db.votes ++ [⟨db.nextId, u, tid, .answer, vt⟩])
        db.nextId = db.votes :=
      deleteDoc_append_fresh Vote.id _ (fun y hy => Nat.ne_of_lt (hfresh y hy)) rfl
    have hqs2 : updateDoc Answer.id
        (updateDoc Answer.id db.answers tid (incAnswer vt 1)) tid
        (incAnswer vt (-1)) = db.answers := by
      rw [updateDoc_updateDoc Answer.id (incAnswer_id vt 1) _ _ _,
        updateDoc_congr Answer.id (fun a => incAnswer_cancel vt a) db.answers tid,
        updateDoc_id_fun]
    have h2 : createVoteDB (createVoteDB db (some ⟨some u⟩) ⟨tid, .answer, vt⟩)
        (some ⟨some u⟩) ⟨tid, .answer, vt⟩ = { db with nextId := db.nextId + 1 } := by
      rw [hdb1]
      simp only [createVoteDB, resultDB, createVote_auth_some, hfind2]
      rw [if_pos trivial, removeVote_eq]
      show ({ db with
          votes := deleteDoc Vote.id (db.votes ++ [⟨db.nextId, u, tid, .answer, vt⟩]) db.nextId,
          nextId := db.nextId + 1,
          answers := (updateDoc Answer.id
            (updateDoc Answer.id db.answers tid (incAnswer vt 1)) tid
            (incAnswer vt (-1))) } : DB)
        = { db with nextId := db.nextId + 1 }
      rw [hvotes2, hqs2]
    refine ⟨?_, ?_, h2, ?_⟩
    · simp [succeeded, createVote_auth_some, hf, okResponse]
    · rw [hdb1]
      simp only [createVote_auth_some, hfind2]
      rw [if_pos trivial]
      rfl
    · rw [h2]
      exact hf

/-- C6 witness: user 7 upvoting question 1 twice on the example state
returns the store to its initial contents (only the fresh-id counter
moved) with no vote row left. -/
theorem C6_toggle_idempotence_witness :
    succeeded (createVote exampleDB (some ⟨some 7⟩) ⟨1, .question, .upvote⟩) = true
    ∧ succeeded (createVote (createVoteDB exampleDB (some ⟨some 7⟩) ⟨1, .question, .upvote⟩)
        (some ⟨some 7⟩) ⟨1, .question, .upvote⟩) = true
    ∧ createVoteDB (createVoteDB exampleDB (some ⟨some 7⟩) ⟨1, .question, .upvote⟩)
        (some ⟨some 7⟩) ⟨1, .question, .upvote⟩ = { exampleDB with nextId := 101 }
    ∧ (createVoteDB (createVoteDB exampleDB (some ⟨some 7⟩) ⟨1, .question, .upvote⟩)
        (some ⟨some 7⟩) ⟨1, .question, .upvote⟩).votes.find?
        (voteFilter 7 ⟨1, .question, .upvote⟩) = none := by
  have h := C6_toggle_idempotence exampleDB 7 ⟨1, .question, .upvote⟩
    (by decide) (by decide)
  exact ⟨h.1, h.2.1, h.2.2.1.trans (by decide), h.2.2.2⟩

/-! #### Vote-count lemmas for the agreement invariant -/

theorem countVotes_append (l1 l2 : List Vote) (i : Nat) (tt2 : TargetType)
    (vt2 : VoteType) :
    countVotes (l1 ++ l2) i tt2 vt2 = countVotes l1 i tt2 vt2 + countVotes l2 i tt2 vt2 := by
  simp [countVotes, List.filter_append]

theorem countVotes_cons (w : Vote) (l : List Vote) (i : Nat) (tt2 : TargetType)
    (vt2 : VoteType) :
    countVotes (w :: l) i tt2 vt2
      = (if voteMatches i tt2 vt2 w then 1 else 0) + countVotes l i tt2 vt2 := by
  by_cases h : voteMatches i tt2 vt2 w <;>
    simp [countVotes, List.filter_cons, h, add_comm]

theorem countVotes_append_single (l : List Vote) (w : Vote) (i : Nat)
    (tt2 : TargetType) (vt2 : VoteType) :
    countVotes (l ++ [w]) i tt2 vt2
      = countVotes l i tt2 vt2 + (if voteMatches i tt2 vt2 w then 1 else 0) := by
  rw [countVotes_append, countVotes_cons]
  simp [countVotes]

theorem countVotes_middle (m1 m2 : List Vote) (v : Vote) (i : Nat)
    (tt2 : TargetType) (vt2 : VoteType) :
    countVotes (m1 ++ v :: m2) i tt2 vt2
      = countVotes (m1 ++ m2) i tt2 vt2 + (if voteMatches i tt2 vt2 v then 1 else 0) := by
  rw [countVotes_append, countVotes_cons, countVotes_append]
  ring

theorem countVotes_match_eval (v : Vote) (tid : Nat) (tt : TargetType) (w : VoteType)
    (h1 : v.actionId = tid) (h2 : v.actionType = tt) (h3 : v.voteType = w)
    (i : Nat) (vt2 : VoteType) :
    (if voteMatches i tt vt2 v then (1 : Int) else 0)
      = (if i = tid then
          (match vt2 with | .upvote => upDelta w 1 | .downvote => downDelta w 1)
        else 0) := by
  by_cases hi : i = tid
  · cases w <;> cases vt2 <;> simp [voteMatches, upDelta, downDelta, h1, h2, h3, hi]
  · have hi2 : tid ≠ i := fun h => hi h.symm
    cases w <;> cases vt2 <;> simp [voteMatches, upDelta, downDelta, h1, h2, h3, hi, hi2]

theorem voteMatches_off_target (v : Vote) (tt tt2 : TargetType)
    (h2 : v.actionType = tt) (hne : tt2 ≠ tt) (i : Nat) (vt2 : VoteType) :
    voteMatches i tt2 vt2 v = false := by
  cases tt <;> cases tt2 <;> first
    | exact absurd rfl hne
    | simp [voteMatches, h2]

theorem switch_match_eval (v : Vote) (tid : Nat) (tt : TargetType)
    (vtNew : VoteType) (h1 : v.actionId = tid) (h2 : v.actionType = tt)
    (i : Nat) (vt2 : VoteType) :
    (if voteMatches i tt vt2 { v with voteType := vtNew } then (1 : Int) else 0)
      - (if voteMatches i tt vt2 v then 1 else 0)
      = (if i = tid then
          (match vt2 with
            | .upvote => upDelta v.voteType (-1) + upDelta vtNew 1
            | .downvote => downDelta v.voteType (-1) + downDelta vtNew 1)
        else 0) := by
  by_cases hi : i = tid
  · cases h3 : v.voteType <;> cases vtNew <;> cases vt2 <;>
      simp [voteMatches, upDelta, downDelta, h1, h2, h3, hi]
  · have hi2 : tid ≠ i := fun h => hi h.symm
    cases h3 : v.voteType <;> cases vtNew <;> cases vt2 <;>
      simp [voteMatches, upDelta, downDelta, h1, h2, h3, hi, hi2]

theorem agreement_questions_bridge
    (questions : List Question) (votes votes2 : List Vote) (tid : Nat) (du dd : Int)
    (hnq : (questions.map Question.id).Nodup)
    (hshift : ∀ i vt2, countVotes votes2 i .question vt2
      = countVotes votes i .question vt2
        + (if i = tid then
            (match vt2 with | .upvote => du | .downvote => dd)
          else 0))
    (hagree : ∀ q ∈ questions,
      q.upvotes = countVotes votes q.id .question .upvote
      ∧ q.downvotes = countVotes votes q.id .question .downvote) :
    ∀ q2 ∈ updateDoc Question.id questions tid
        (fun q => { q with upvotes := q.upvotes + du, downvotes := q.downvotes + dd }),
      q2.upvotes = countVotes votes2 q2.id .question .upvote
      ∧ q2.downvotes = countVotes votes2 q2.id .question .downvote := by
  cases hfd : findDoc Question.id questions tid with
  | none =>
    rw [updateDoc_of_none Question.id _ ((findDoc_eq_none_iff _ _ _).mp hfd)]
    intro q2 hq2
    have hne : q2.id ≠ tid := (findDoc_eq_none_iff _ _ _).mp hfd q2 hq2
    refine ⟨?_, ?_⟩
    · rw [hshift q2.id .upvote, if_neg hne, add_zero]
      exact (hagree q2 hq2).1
    · rw [hshift q2.id .downvote, if_neg hne, add_zero]
      exact (hagree q2 hq2).2
  | some q0 =>
    obtain ⟨l1, l2, hsp, hl1, hqid⟩ := findDoc_some_split Question.id hfd
    subst hsp
    rw [updateDoc_split Question.id l2 _ hl1 hqid]
    have hl2 : ∀ y ∈ l2, Question.id y ≠ tid := by
      rw [List.map_append, List.map_cons] at hnq
      have h2 := (List.nodup_append.mp hnq).2.1
      exact ids_ne_of_not_mem Question.id (List.nodup_cons.mp h2).1 hqid
    intro q2 hq2
    rcases List.mem_append.mp hq2 with hm | hm
    · have hne : q2.id ≠ tid := hl1 q2 hm
      have hag := hagree q2 (by simp [hm])
      refine ⟨?_, ?_⟩
      · rw [hshift q2.id .upvote, if_neg hne, add_zero]
        exact hag.1
      · rw [hshift q2.id .downvote, if_neg hne, add_zero]
        exact hag.2
    · rcases List.mem_cons.mp hm with rfl | hm2
      · have hag := hagree q0 (by simp)
        refine ⟨?_, ?_⟩
        · show q0.upvotes + du = countVotes votes2 q0.id .question .upvote
          rw [hshift q0.id .upvote, if_pos hqid, hag.1]
        · show q0.downvotes + dd = countVotes votes2 q0.id .question .downvote
          rw [hshift q0.id .downvote, if_pos hqid, hag.2]
      · have hne : q2.id ≠ tid := hl2 q2 hm2
        have hag := hagree q2 (by simp [hm2])
        refine ⟨?_, ?_⟩
        · rw [hshift q2.id .upvote, if_neg hne, add_zero]
          exact hag.1
        · rw [hshift q2.id .downvote, if_neg hne, add_zero]
          exact hag.2

theorem agreement_answers_bridge
    (answers : List Answer) (votes votes2 : List Vote) (tid : Nat) (du dd : Int)
    (hna : (answers.map Answer.id).Nodup)
    (hshift : ∀ i vt2, countVotes votes2 i .answer vt2
      = countVotes votes i .answer vt2
        + (if i = tid then
            (match vt2 with | .upvote => du | .downvote => dd)
          else 0))
    (hagree : ∀ a ∈ answers,
      a.upvotes = countVotes votes a.id .answer .upvote
      ∧ a.downvotes = countVotes votes a.id .answer .downvote) :
    ∀ a2 ∈ updateDoc Answer.id answers tid
        (fun a => { a with upvotes := a.upvotes + du, downvotes := a.downvotes + dd }),
      a2.upvotes = countVotes votes2 a2.id .answer .upvote
      ∧ a2.downvotes = countVotes votes2 a2.id .answer .downvote := by
  cases hfd : findDoc Answer.id answers tid with
  | none =>
    rw [updateDoc_of_none Answer.id _ ((findDoc_eq_none_iff _ _ _).mp hfd)]
    intro a2 ha2
    have hne : a2.id ≠ tid := (findDoc_eq_none_iff _ _ _).mp hfd a2 ha2
    refine ⟨?_, ?_⟩
    · rw [hshift a2.id .upvote, if_neg hne, add_zero]
      exact (hagree a2 ha2).1
    · rw [hshift a2.id .downvote, if_neg hne, add_zero]
      exact (hagree a2 ha2).2
  | some a0 =>
    obtain ⟨l1, l2, hsp, hl1, hqid⟩ := findDoc_some_split Answer.id hfd
    subst hsp
    rw [updateDoc_split Answer.id l2 _ hl1 hqid]
    have hl2 : ∀ y ∈ l2, Answer.id y ≠ tid := by
      rw [List.map_append, List.map_cons] at hna
      have h2 := (List.nodup_append.mp hna).2.1
      exact ids_ne_of_not_mem Answer.id (List.nodup_cons.mp h2).1 hqid
    intro a2 ha2
    rcases List.mem_append.mp ha2 with hm | hm
    · have hne : a2.id ≠ tid := hl1 a2 hm
      have hag := hagree a2 (by simp [hm])
      refine ⟨?_, ?_⟩
      · rw [hshift a2.id .upvote, if_neg hne, add_zero]
        exact hag.1
      · rw [hshift a2.id .downvote, if_neg hne, add_zero]
        exact hag.2
    · rcases List.mem_cons.mp hm with rfl | hm2
      · have hag := hagree a0 (by simp)
        refine ⟨?_, ?_⟩
        · show a0.upvotes + du = countVotes votes2 a0.id .answer .upvote
          rw [hshift a0.id .upvote, if_pos hqid, hag.1]
        · show a0.downvotes + dd = countVotes votes2 a0.id .answer .downvote
          rw [hshift a0.id .downvote, if_pos hqid, hag.2]
      · have hne : a2.id ≠ tid := hl2 a2 hm2
        have hag := hagree a2 (by simp [hm2])
        refine ⟨?_, ?_⟩
        · rw [hshift a2.id .upvote, if_neg hne, add_zero]
          exact hag.1
        · rw [hshift a2.id .downvote, if_neg hne, add_zero]
          exact hag.2

theorem agreement_questions_frame
    (questions : List Question) (votes votes2 : List Vote)
    (hshift : ∀ i vt2, countVotes votes2 i .question vt2 = countVotes votes i .question vt2)
    (hagree : ∀ q ∈ questions,
      q.upvotes = countVotes votes q.id .question .upvote
      ∧ q.downvotes = countVotes votes q.id .question .downvote) :
    ∀ q ∈ questions,
      q.upvotes = countVotes votes2 q.id .question .upvote
      ∧ q.downvotes = countVotes votes2 q.id .question .downvote := by
  intro q hq
  exact ⟨by rw [hshift] ; exact (hagree q hq).1, by rw [hshift] ; exact (hagree q hq).2⟩

theorem agreement_answers_frame
    (answers : List Answer) (votes votes2 : List Vote)
    (hshift : ∀ i vt2, countVotes votes2 i .answer vt2 = countVotes votes i .answer vt2)
    (hagree : ∀ a ∈ answers,
      a.upvotes = countVotes votes a.id .answer .upvote
      ∧ a.downvotes = countVotes votes a.id .answer .downvote) :
    ∀ a ∈ answers,
      a.upvotes = countVotes votes2 a.id .answer .upvote
      ∧ a.downvotes = countVotes votes2 a.id .answer .downvote := by
  intro a ha
  exact ⟨by rw [hshift] ; exact (hagree a ha).1, by rw [hshift] ; exact (hagree a ha).2⟩

theorem delta_neg (tid : Nat) (w : VoteType) (i : Nat) (vt2 : VoteType) :
    (if i = tid then
      (match vt2 with | .upvote => upDelta w (-1) | .downvote => downDelta w (-1))
    else 0)
      = -(if i = tid then
          (match vt2 with | .upvote => upDelta w 1 | .downvote => downDelta w 1)
        else (0 : Int)) := by
  by_cases hi : i = tid <;> cases w <;> cases vt2 <;> simp [upDelta, downDelta, hi]

/-- C1: the counter/vote agreement invariant — every votable entity's
denormalized upvote and downvote counters equal the number of live Vote
records with the corresponding voteType targeting it — is preserved by
every `createVote` call, whatever the session, target and vote type: the
committed vote insertion, removal or switch always carries exactly the
matching counter update.  The operation is a single state-to-state
function mirroring the source's transaction, so counter and vote-row
mutations are never individually visible and the invariant holds at
every quiescent point. -/
theorem C1_vote_counter_agreement_preserved (db : DB) (auth : Auth) (p : CreateVoteParams)
    (hnq : (db.questions.map Question.id).Nodup)
    (hna : (db.answers.map Answer.id).Nodup)
    (hnv : (db.votes.map Vote.id).Nodup)
    (hagree : voteAgreement db) :
    voteAgreement (createVoteDB db auth p) := by
  obtain ⟨tid, tt, vt⟩ := p
  match auth with
  | none => exact hagree
  | some ⟨none⟩ => exact hagree
  | some ⟨some u⟩ =>
    cases hfind : db.votes.find? (voteFilter u ⟨tid, tt, vt⟩) with
    | none =>
      have hdb : createVoteDB db (some ⟨some u⟩) ⟨tid, tt, vt⟩
          = createNewVote db ⟨tid, tt, vt⟩ u := by
        simp [createVoteDB, resultDB, createVote_auth_some, hfind]
      rw [hdb, createNewVote_eq]
      cases tt
      case question =>
        have hshiftQ : ∀ i vt2,
            countVotes (db.votes ++ [(⟨db.nextId, u, tid, .question, vt⟩ : Vote)])
              i .question vt2
            = countVotes db.votes i .question vt2
              + (if i = tid then
                  (match vt2 with | .upvote => upDelta vt 1 | .downvote => downDelta vt 1)
                else 0) := by
          intro i vt2
          rw [countVotes_append_single, countVotes_match_eval
            (⟨db.nextId, u, tid, .question, vt⟩ : Vote) tid .question vt rfl rfl rfl i vt2]
        have hshiftA : ∀ i vt2,
            countVotes (db.votes ++ [(⟨db.nextId, u, tid, .question, vt⟩ : Vote)])
              i .answer vt2
            = countVotes db.votes i .answer vt2 := by
          intro i vt2
          rw [countVotes_append_single, voteMatches_off_target
            (⟨db.nextId, u, tid, .question, vt⟩ : Vote) .question .answer rfl (by decide) i vt2]
          simp
        refine ⟨?_, agreement_answers_frame db.answers db.votes _ hshiftA hagree.2⟩
        show ∀ q2 ∈ updateDoc Question.id db.questions tid (incQuestion vt 1), _
        rw [updateDoc_congr Question.id (incQuestion_as_shift vt 1) db.questions tid]
        exact agreement_questions_bridge db.questions db.votes _ tid
          (upDelta vt 1) (downDelta vt 1) hnq hshiftQ hagree.1
      case answer =>
        have hshiftA : ∀ i vt2,
            countVotes (db.votes ++ [(⟨db.nextId, u, tid, .answer, vt⟩ : Vote)])
              i .answer vt2
            = countVotes db.votes i .answer vt2
              + (if i = tid then
                  (match vt2 with | .upvote => upDelta vt 1 | .downvote => downDelta vt 1)
                else 0) := by
          intro i vt2
          rw [countVotes_append_single, countVotes_match_eval
            (⟨db.nextId, u, tid, .answer, vt⟩ : Vote) tid .answer vt rfl rfl rfl i vt2]
        have hshiftQ : ∀ i vt2,
            countVotes (db.votes ++ [(⟨db.nextId, u, tid, .answer, vt⟩ : Vote)])
              i .question vt2
            = countVotes db.votes i .question vt2 := by
          intro i vt2
          rw [countVotes_append_single, voteMatches_off_target
            (⟨db.nextId, u, tid, .answer, vt⟩ : Vote) .answer .question rfl (by decide) i vt2]
          simp
        refine ⟨agreement_questions_frame db.questions db.votes _ hshiftQ hagree.1, ?_⟩
        show ∀ a2 ∈ updateDoc Answer.id db.answers tid (incAnswer vt 1), _
        rw [updateDoc_congr Answer.id (incAnswer_as_shift vt 1) db.answers tid]
        exact agreement_answers_bridge db.answers db.votes _ tid
          (upDelta vt 1) (downDelta vt 1) hna hshiftA hagree.2
    | some v =>
      have hvf := List.find?_some hfind
      simp only [voteFilter, decide_eq_true_eq] at hvf
      obtain ⟨hvu, hvi, hvt2⟩ := hvf
      have hvm : v ∈ db.votes := List.mem_of_find?_eq_some hfind
      have hfdv : findDoc Vote.id db.votes v.id = some v :=
        findDoc_of_nodup_mem Vote.id hnv hvm
      obtain ⟨m1, m2, hsp, hm1, hvid⟩ := findDoc_some_split Vote.id hfdv
      by_cases hvt : v.voteType = vt
      · -- toggle off: remove the vote, decrement the same counter
        have hdb : createVoteDB db (some ⟨some u⟩) ⟨tid, tt, vt⟩
            = removeVote db v.id ⟨tid, tt, vt, -1⟩ := by
          simp [createVoteDB, resultDB, createVote_auth_some, hfind, hvt]
        rw [hdb, removeVote_eq]
        have hdel : deleteDoc Vote.id db.votes v.id = m1 ++ m2 := by
          rw [hsp]
          exact deleteDoc_split Vote.id m2 hm1 hvid
        have hmid : ∀ i tt2 vt2, countVotes db.votes i tt2 vt2
            = countVotes (m1 ++ m2) i tt2 vt2
              + (if voteMatches i tt2 vt2 v then 1 else 0) := by
          intro i tt2 vt2
          rw [hsp]
          exact countVotes_middle m1 m2 v i tt2 vt2
        cases tt
        ·
          have hshiftQ : ∀ i vt2,
              countVotes (deleteDoc Vote.id db.votes v.id) i .question vt2
              = countVotes db.votes i .question vt2
                + (if i = tid then
                    (match vt2 with
                      | .upvote => upDelta vt (-1) | .downvote => downDelta vt (-1))
                  else 0) := by
            intro i vt2
            rw [hdel, delta_neg, hmid i .question vt2,
              countVotes_match_eval v tid .question vt hvi hvt2 hvt i vt2]
            ring
          have hshiftA : ∀ i vt2,
              countVotes (deleteDoc Vote.id db.votes v.id) i .answer vt2
              = countVotes db.votes i .answer vt2 := by
            intro i vt2
            rw [hdel, hmid i .answer vt2,
              voteMatches_off_target v .question .answer hvt2 (by decide) i vt2]
            simp
          refine ⟨?_, agreement_answers_frame db.answers db.votes _ hshiftA hagree.2⟩
          show ∀ q2 ∈ updateDoc Question.id db.questions tid (incQuestion vt (-1)), _
          rw [updateDoc_congr Question.id (incQuestion_as_shift vt (-1)) db.questions tid]
          exact agreement_questions_bridge db.questions db.votes _ tid
            (upDelta vt (-1)) (downDelta vt (-1)) hnq hshiftQ hagree.1
        ·
          have hshiftA : ∀ i vt2,
              countVotes (deleteDoc Vote.id db.votes v.id) i .answer vt2
              = countVotes db.votes i .answer vt2
                + (if i = tid then
                    (match vt2 with
                      | .upvote => upDelta vt (-1) | .downvote => downDelta vt (-1))
                  else 0) := by
            intro i vt2
            rw [hdel, delta_neg, hmid i .answer vt2,
              countVotes_match_eval v tid .answer vt hvi hvt2 hvt i vt2]
            ring
          have hshiftQ : ∀ i vt2,
              countVotes (deleteDoc Vote.id db.votes v.id) i .question vt2
              = countVotes db.votes i .question vt2 := by
            intro i vt2
            rw [hdel, hmid i .question vt2,
              voteMatches_off_target v .answer .question hvt2 (by decide) i vt2]
            simp
          refine ⟨agreement_questions_frame db.questions db.votes _ hshiftQ hagree.1, ?_⟩
          show ∀ a2 ∈ updateDoc Answer.id db.answers tid (incAnswer vt (-1)), _
          rw [updateDoc_congr Answer.id (incAnswer_as_shift vt (-1)) db.answers tid]
          exact agreement_answers_bridge db.answers db.votes _ tid
            (upDelta vt (-1)) (downDelta vt (-1)) hna hshiftA hagree.2
      · -- switch: rewrite the vote's type, -1 old counter, +1 new counter
        have hdb : createVoteDB db (some ⟨some u⟩) ⟨tid, tt, vt⟩
            = switchVoteType db v.id vt ⟨tid, tt, vt⟩ := by
          simp [createVoteDB, resultDB, createVote_auth_some, hfind, hvt]
        have hop : oppositeVote vt = v.voteType := oppositeVote_of_ne (fun h => hvt h)
        rw [hdb, switchVoteType_eq, hop]
        have hupd : updateDoc Vote.id db.votes v.id (fun w => { w with voteType := vt })
            = m1 ++ { v with voteType := vt } :: m2 := by
          rw [hsp]
          exact updateDoc_split Vote.id m2 _ hm1 hvid
        have hmid : ∀ i tt2 vt2, countVotes db.votes i tt2 vt2
            = countVotes (m1 ++ m2) i tt2 vt2
              + (if voteMatches i tt2 vt2 v then 1 else 0) := by
          intro i tt2 vt2
          rw [hsp]
          exact countVotes_middle m1 m2 v i tt2 vt2
        have hmid2 : ∀ i tt2 vt2,
            countVotes (m1 ++ { v with voteType := vt } :: m2) i tt2 vt2
            = countVotes (m1 ++ m2) i tt2 vt2
              + (if voteMatches i tt2 vt2 { v with voteType := vt } then 1 else 0) :=
          fun i tt2 vt2 => countVotes_middle m1 m2 _ i tt2 vt2
        cases tt
        ·
          have hshiftQ : ∀ i vt2,
              countVotes (updateDoc Vote.id db.votes v.id
                (fun w => { w with voteType := vt })) i .question vt2
              = countVotes db.votes i .question vt2
                + (if i = tid then
                    (match vt2 with
                      | .upvote => upDelta v.voteType (-1) + upDelta vt 1
                      | .downvote => downDelta v.voteType (-1) + downDelta vt 1)
                  else 0) := by
            intro i vt2
            rw [hupd, hmid2 i .question vt2, hmid i .question vt2,
              ← switch_match_eval v tid .question vt hvi hvt2 i vt2]
            ring
          have hshiftA : ∀ i vt2,
              countVotes (updateDoc Vote.id db.votes v.id
                (fun w => { w with voteType := vt })) i .answer vt2
              = countVotes db.votes i .answer vt2 := by
            intro i vt2
            rw [hupd, hmid2 i .answer vt2, hmid i .answer vt2,
              voteMatches_off_target v .question .answer hvt2 (by decide) i vt2,
              voteMatches_off_target { v with voteType := vt } .question .answer hvt2
                (by decide) i vt2]
          refine ⟨?_, agreement_answers_frame db.answers db.votes _ hshiftA hagree.2⟩
          show ∀ q2 ∈ updateDoc Question.id
            (updateDoc Question.id db.questions tid (incQuestion v.voteType (-1)))
            tid (incQuestion vt 1), _
          rw [updateDoc_updateDoc Question.id (incQuestion_id v.voteType (-1)) _ _ _,
            updateDoc_congr Question.id
              (fun q => incQuestion_comp_as_shift v.voteType vt (-1) 1 q) db.questions tid]
          exact agreement_questions_bridge db.questions db.votes _ tid
            (upDelta v.voteType (-1) + upDelta vt 1)
            (downDelta v.voteType (-1) + downDelta vt 1) hnq hshiftQ hagree.1
        ·
          have hshiftA : ∀ i vt2,
              countVotes (updateDoc Vote.id db.votes v.id
                (fun w => { w with voteType := vt })) i .answer vt2
              = countVotes db.votes i .answer vt2
                + (if i = tid then
                    (match vt2 with
                      | .upvote => upDelta v.voteType (-1) + upDelta vt 1
                      | .downvote => downDelta v.voteType (-1) + downDelta vt 1)
                  else 0) := by
            intro i vt2
            rw [hupd, hmid2 i .answer vt2, hmid i .answer vt2,
              ← switch_match_eval v tid .answer vt hvi hvt2 i vt2]
            ring
          have hshiftQ : ∀ i vt2,
              countVotes (updateDoc Vote.id db.votes v.id
                (fun w => { w with voteType := vt })) i .question vt2
              = countVotes db.votes i .question vt2 := by
            intro i vt2
            rw [hupd, hmid2 i .question vt2, hmid i .question vt2,
              voteMatches_off_target v .answer .question hvt2 (by decide) i vt2,
              voteMatches_off_target { v with voteType := vt } .answer .question hvt2
                (by decide) i vt2]
          refine ⟨agreement_questions_frame db.questions db.votes _ hshiftQ hagree.1, ?_⟩
          show ∀ a2 ∈ updateDoc Answer.id
            (updateDoc Answer.id db.answers tid (incAnswer v.voteType (-1)))
            tid (incAnswer vt 1), _
          rw [updateDoc_updateDoc Answer.id (incAnswer_id v.voteType (-1)) _ _ _,
            updateDoc_congr Answer.id
              (fun a => incAnswer_comp_as_shift v.voteType vt (-1) 1 a) db.answers tid]
          exact agreement_answers_bridge db.answers db.votes _ tid
            (upDelta v.voteType (-1) + upDelta vt 1)
            (downDelta v.voteType (-1) + downDelta vt 1) hna hshiftA hagree.2

/-- C1 witness: on the example state (question 1 with zero counters and
no votes, where the invariant holds), an upvote by user 7 preserves the
counter/vote agreement. -/
theorem C1_vote_counter_agreement_preserved_witness :
    voteAgreement (createVoteDB exampleDB (some ⟨some 7⟩) ⟨1, .question, .upvote⟩) :=
  C1_vote_counter_agreement_preserved exampleDB (some ⟨some 7⟩) ⟨1, .question, .upvote⟩
    (by decide) (by decide) (by decide) ⟨by decide, by decide⟩

/-! #### Tag upsert and removal-loop lemmas -/

theorem processTag_cases (tag : String) (tags : List Tag) (n : Nat) :
    ((processTag tag tags n).2.1 = tags ++ [⟨n, tag, 1⟩]
      ∧ (processTag tag tags n).2.2 = n + 1)
    ∨ ((processTag tag tags n).2.2 = n
      ∧ ∀ t ∈ (processTag tag tags n).2.1, ∃ t0 ∈ tags, t.id = t0.id ∧ t.name = t0.name) := by
  induction tags with
  | nil => left ; exact ⟨rfl, rfl⟩
  | cons t0 ts ih =>
    by_cases h : ciEq t0.name tag
    · right
      refine ⟨by simp [processTag, h], ?_⟩
      intro t ht
      have hx : (processTag tag (t0 :: ts) n).2.1
          = { t0 with questions := t0.questions + 1 } :: ts := by
        simp [processTag, h]
      rw [hx] at ht
      rcases List.mem_cons.mp ht with heq | ht2
      · subst heq
        exact ⟨t0, by simp, rfl, rfl⟩
      · exact ⟨t, by simp [ht2], rfl, rfl⟩
    · have hx : (processTag tag (t0 :: ts) n).2.1 = t0 :: (processTag tag ts n).2.1 := by
        simp [processTag, h]
      have hx2 : (processTag tag (t0 :: ts) n).2.2 = (processTag tag ts n).2.2 := by
        simp [processTag, h]
      rcases ih with ⟨h1, h2⟩ | ⟨h1, h2⟩
      · left
        constructor
        · rw [hx, h1]
          simp
        · rw [hx2, h2]
      · right
        constructor
        · rw [hx2, h1]
        · intro t ht
          rw [hx] at ht
          rcases List.mem_cons.mp ht with heq | ht2
          · subst heq
            exact ⟨t, by simp, rfl, rfl⟩
          · obtain ⟨t1, ht1, he⟩ := h2 t ht2
            exact ⟨t1, by simp [ht1], he⟩

theorem processTag_ids (tag : String) (tags : List Tag) (n : Nat) :
    ((processTag tag tags n).2.1.map Tag.id = tags.map Tag.id
      ∧ (processTag tag tags n).2.2 = n)
    ∨ ((processTag tag tags n).2.1.map Tag.id = tags.map Tag.id ++ [n]
      ∧ (processTag tag tags n).2.2 = n + 1) := by
  induction tags with
  | nil => right ; exact ⟨rfl, rfl⟩
  | cons t0 ts ih =>
    by_cases h : ciEq t0.name tag
    · left
      exact ⟨by simp [processTag, h], by simp [processTag, h]⟩
    · have hx : (processTag tag (t0 :: ts) n).2.1 = t0 :: (processTag tag ts n).2.1 := by
        simp [processTag, h]
      have hx2 : (processTag tag (t0 :: ts) n).2.2 = (processTag tag ts n).2.2 := by
        simp [processTag, h]
      rcases ih with ⟨h1, h2⟩ | ⟨h1, h2⟩
      · left
        exact ⟨by rw [hx] ; simp [h1], by rw [hx2, h2]⟩
      · right
        exact ⟨by rw [hx] ; simp [h1], by rw [hx2, h2]⟩

theorem processTag_mem_nonneg (tag : String) (tags : List Tag) (n : Nat)
    (hnn : ∀ x ∈ tags, 0 ≤ x.questions) :
    ∀ x ∈ (processTag tag tags n).2.1, 0 ≤ x.questions := by
  induction tags with
  | nil =>
    intro x hx
    rw [show (processTag tag [] n).2.1 = [⟨n, tag, 1⟩] from rfl, List.mem_singleton] at hx
    subst hx
    exact zero_le_one
  | cons t0 ts ih =>
    intro x hx
    by_cases h : ciEq t0.name tag
    · have hxx : (processTag tag (t0 :: ts) n).2.1
          = { t0 with questions := t0.questions + 1 } :: ts := by
        simp [processTag, h]
      rw [hxx] at hx
      rcases List.mem_cons.mp hx with heq | hx2
      · subst heq
        have := hnn t0 (by simp)
        show 0 ≤ t0.questions + 1
        omega
      · exact hnn x (by simp [hx2])
    · have hxx : (processTag tag (t0 :: ts) n).2.1 = t0 :: (processTag tag ts n).2.1 := by
        simp [processTag, h]
      rw [hxx] at hx
      rcases List.mem_cons.mp hx with heq | hx2
      · subst heq
        exact hnn x (by simp)
      · exact ih (fun y hy => hnn y (by simp [hy])) x hx2

theorem processTags_spec (names : List String) (tags : List Tag) (n : Nat) :
    n ≤ (processTags names tags n).2.2
    ∧ (∀ t ∈ (processTags names tags n).2.1,
        (∃ t0 ∈ tags, t.id = t0.id ∧ t.name = t0.name)
        ∨ (t.name ∈ names ∧ n ≤ t.id)) := by
  induction names generalizing tags n with
  | nil =>
    refine ⟨Nat.le_refl n, ?_⟩
    intro t ht
    exact Or.inl ⟨t, ht, rfl, rfl⟩
  | cons nm names ih =>
    have hih := ih (processTag nm tags n).2.1 (processTag nm tags n).2.2
    have hmono : n ≤ (processTag nm tags n).2.2 := by
      rcases processTag_ids nm tags n with ⟨_, h2⟩ | ⟨_, h2⟩ <;> rw [h2] <;> omega
    constructor
    · exact Nat.le_trans hmono hih.1
    · intro t ht
      rcases hih.2 t ht with ⟨t0, ht0, hei, hen⟩ | ⟨hn1, hn2⟩
      · rcases processTag_cases nm tags n with ⟨h1, _⟩ | ⟨_, h2⟩
        · rw [h1] at ht0
          rcases List.mem_append.mp ht0 with hm | hm
          · exact Or.inl ⟨t0, hm, hei, hen⟩
          · rw [List.mem_singleton] at hm
            subst hm
            refine Or.inr ⟨by simp [hen], ?_⟩
            simp only [] at hei
            omega
        · obtain ⟨t1, ht1, he1, he2⟩ := h2 t0 ht0
          exact Or.inl ⟨t1, ht1, hei.trans he1, hen.trans he2⟩
      · exact Or.inr ⟨by simp [hn1], Nat.le_trans hmono hn2⟩

theorem processTags_mem_nonneg (names : List String) (tags : List Tag) (n : Nat)
    (hnn : ∀ x ∈ tags, 0 ≤ x.questions) :
    ∀ x ∈ (processTags names tags n).2.1, 0 ≤ x.questions := by
  induction names generalizing tags n with
  | nil => exact hnn
  | cons nm names ih =>
    exact ih (processTag nm tags n).2.1 (processTag nm tags n).2.2
      (processTag_mem_nonneg nm tags n hnn)

theorem processTags_nodup_fresh (names : List String) (tags : List Tag) (n : Nat)
    (hn : (tags.map Tag.id).Nodup) (hfresh : ∀ i ∈ tags.map Tag.id, i < n) :
    ((processTags names tags n).2.1.map Tag.id).Nodup
    ∧ (∀ i ∈ (processTags names tags n).2.1.map Tag.id, i < (processTags names tags n).2.2) := by
  induction names generalizing tags n with
  | nil => exact ⟨hn, hfresh⟩
  | cons nm names ih =>
    rcases processTag_ids nm tags n with ⟨h1, h2⟩ | ⟨h1, h2⟩
    · have := ih (processTag nm tags n).2.1 (processTag nm tags n).2.2
        (by rw [h1] ; exact hn) (by rw [h1, h2] ; exact hfresh)
      exact this
    · refine ih (processTag nm tags n).2.1 (processTag nm tags n).2.2 ?_ ?_
      · rw [h1]
        rw [List.nodup_append]
        exact ⟨hn, List.nodup_singleton n,
          fun i hi => by simp ; intro he ; subst he ; exact absurd (hfresh i hi) (by omega)⟩
      · rw [h1, h2]
        intro i hi
        rcases List.mem_append.mp hi with hm | hm
        · exact Nat.lt_succ_of_lt (hfresh i hm)
        · rw [List.mem_singleton] at hm
          omega

theorem removeTagStep_nodup (tags : List Tag) (s : Tag)
    (hn : (tags.map Tag.id).Nodup) : ((removeTagStep tags s).map Tag.id).Nodup := by
  unfold removeTagStep
  split
  · exact hn.sublist ((deleteDoc_sublist Tag.id tags s.id).map Tag.id)
  · split
    · split
      · have h1 : ((updateDoc Tag.id tags s.id
            (fun x => { x with questions := x.questions - 1 })).map Tag.id).Nodup := by
          rw [updateDoc_map_idOf Tag.id
            (fun x => { x with questions := x.questions - 1 }) (fun _ => rfl)]
          exact hn
        exact h1.sublist ((deleteDoc_sublist Tag.id _ s.id).map Tag.id)
      · rw [updateDoc_map_idOf Tag.id
          (fun x => { x with questions := x.questions - 1 }) (fun _ => rfl)]
        exact hn
    · exact hn

theorem removeTagStep_findDoc_ne (tags : List Tag) (s : Tag) (i : Nat)
    (hne : i ≠ s.id) :
    findDoc Tag.id (removeTagStep tags s) i = findDoc Tag.id tags i := by
  unfold removeTagStep
  split
  · exact findDoc_deleteDoc_ne Tag.id hne
  · split
    · split
      · rw [findDoc_deleteDoc_ne Tag.id hne,
          findDoc_updateDoc_ne Tag.id
            (fun x => { x with questions := x.questions - 1 }) (fun _ => rfl) hne]
      · exact findDoc_updateDoc_ne Tag.id
          (fun x => { x with questions := x.questions - 1 }) (fun _ => rfl) hne
    · rfl

theorem removeTagStep_mem (tags : List Tag) (s : Tag) :
    ∀ t ∈ removeTagStep tags s, ∃ t0 ∈ tags, t.id = t0.id ∧ t.name = t0.name := by
  intro t ht
  have hupd : ∀ t2 ∈ updateDoc Tag.id tags s.id
      (fun x => { x with questions := x.questions - 1 }),
      ∃ t0 ∈ tags, t2.id = t0.id ∧ t2.name = t0.name := by
    intro t2 ht2
    rcases mem_of_mem_updateDoc Tag.id ht2 with hm | ⟨y, hy, _, heq⟩
    · exact ⟨t2, hm, rfl, rfl⟩
    · exact ⟨y, hy, by rw [heq], by rw [heq]⟩
  unfold removeTagStep at ht
  split at ht
  · exact ⟨t, mem_of_mem_deleteDoc Tag.id ht, rfl, rfl⟩
  · split at ht
    · split at ht
      · exact hupd t (mem_of_mem_deleteDoc Tag.id ht)
      · exact hupd t ht
    · exact ⟨t, ht, rfl, rfl⟩

theorem removeTagStep_nonneg (tags : List Tag) (s : Tag)
    (hn : (tags.map Tag.id).Nodup)
    (hsub : findDoc Tag.id tags s.id = some s)
    (hnn : ∀ x ∈ tags, 0 ≤ x.questions) :
    ∀ x ∈ removeTagStep tags s, 0 ≤ x.questions := by
  intro x hx
  have hupd : 0 < s.questions → ∀ y2 ∈ updateDoc Tag.id tags s.id
      (fun y => { y with questions := y.questions - 1 }), 0 ≤ y2.questions := by
    intro hpos y2 hy2
    rcases mem_of_mem_updateDoc Tag.id hy2 with hm | ⟨y, hy, hyi, heq⟩
    · exact hnn y2 hm
    · have hfd : findDoc Tag.id tags (Tag.id y) = some y :=
        findDoc_of_nodup_mem Tag.id hn hy
      rw [hyi, hsub] at hfd
      have hys : s = y := Option.some.inj hfd
      rw [heq]
      show 0 ≤ y.questions - 1
      have : 0 < y.questions := hys ▸ hpos
      omega
  unfold removeTagStep at hx
  split at hx
  · exact hnn x (mem_of_mem_deleteDoc Tag.id hx)
  · split at hx
    · rename_i hz hpos
      split at hx
      · exact hupd hpos x (mem_of_mem_deleteDoc Tag.id hx)
      · exact hupd hpos x hx
    · exact hnn x hx

theorem processTagRemovals_findDoc_ne (snapshot : List Tag) (tags : List Tag) (i : Nat)
    (h : ∀ s ∈ snapshot, i ≠ s.id) :
    findDoc Tag.id (processTagRemovals snapshot tags) i = findDoc Tag.id tags i := by
  induction snapshot generalizing tags with
  | nil => rfl
  | cons s ss ih =>
    show findDoc Tag.id (processTagRemovals ss (removeTagStep tags s)) i = _
    rw [ih (removeTagStep tags s) (fun s2 hs2 => h s2 (by simp [hs2])),
      removeTagStep_findDoc_ne tags s i (h s (by simp))]

theorem processTagRemovals_mem (snapshot : List Tag) (tags : List Tag) :
    ∀ t ∈ processTagRemovals snapshot tags,
      ∃ t0 ∈ tags, t.id = t0.id ∧ t.name = t0.name := by
  induction snapshot generalizing tags with
  | nil => exact fun t ht => ⟨t, ht, rfl, rfl⟩
  | cons s ss ih =>
    intro t ht
    have ht2 : t ∈ processTagRemovals ss (removeTagStep tags s) := ht
    obtain ⟨t1, ht1, he1, he2⟩ := ih (removeTagStep tags s) t ht2
    obtain ⟨t0, ht0, he3, he4⟩ := removeTagStep_mem tags s t1 ht1
    exact ⟨t0, ht0, he1.trans he3, he2.trans he4⟩

theorem processTagRemovals_nonneg (snapshot : List Tag) (tags : List Tag)
    (hn : (tags.map Tag.id).Nodup)
    (hsnap : ∀ s ∈ snapshot, findDoc Tag.id tags s.id = some s)
    (hdis : (snapshot.map Tag.id).Nodup)
    (hnn : ∀ x ∈ tags, 0 ≤ x.questions) :
    ∀ x ∈ processTagRemovals snapshot tags, 0 ≤ x.questions := by
  induction snapshot generalizing tags with
  | nil => exact hnn
  | cons s0 ss ih =>
    rw [List.map_cons, List.nodup_cons] at hdis
    have hdis2 : ∀ y ∈ ss, Tag.id y ≠ s0.id :=
      ids_ne_of_not_mem Tag.id hdis.1 rfl
    intro x hx
    have hx2 : x ∈ processTagRemovals ss (removeTagStep tags s0) := hx
    refine ih (removeTagStep tags s0) (removeTagStep_nodup tags s0 hn) ?_ hdis.2
      (removeTagStep_nonneg tags s0 hn (hsnap s0 (by simp)) hnn) x hx2
    intro s2 hs2
    rw [removeTagStep_findDoc_ne tags s0 s2.id (hdis2 s2 hs2)]
    exact hsnap s2 (by simp [hs2])

theorem processTagRemovals_fates (snapshot : List Tag) (tags : List Tag)
    (hn : (tags.map Tag.id).Nodup)
    (hdis : (snapshot.map Tag.id).Nodup)
    (hsnap : ∀ s ∈ snapshot, findDoc Tag.id tags s.id = some s) :
    ∀ s ∈ snapshot,
      (s.questions = 0 →
        findDoc Tag.id (processTagRemovals snapshot tags) s.id = none)
      ∧ (s.questions < 0 →
        findDoc Tag.id (processTagRemovals snapshot tags) s.id = some s) := by
  induction snapshot generalizing tags with
  | nil => simp
  | cons s0 ss ih =>
    rw [List.map_cons, List.nodup_cons] at hdis
    have hdis2 : ∀ y ∈ ss, Tag.id y ≠ s0.id :=
      ids_ne_of_not_mem Tag.id hdis.1 rfl
    have hsnap1 : ∀ s2 ∈ ss, findDoc Tag.id (removeTagStep tags s0) s2.id = some s2 := by
      intro s2 hs2
      rw [removeTagStep_findDoc_ne tags s0 s2.id (hdis2 s2 hs2)]
      exact hsnap s2 (by simp [hs2])
    intro s hs
    rcases List.mem_cons.mp hs with heq | hs2
    · subst heq
      constructor
      · intro hz
        show findDoc Tag.id (processTagRemovals ss (removeTagStep tags s)) s.id = none
        rw [processTagRemovals_findDoc_ne ss _ s.id
          (fun y hy => fun he => hdis2 y hy he.symm)]
        unfold removeTagStep
        rw [if_pos hz]
        exact findDoc_deleteDoc_self Tag.id hn
      · intro hneg
        show findDoc Tag.id (processTagRemovals ss (removeTagStep tags s)) s.id = some s
        rw [processTagRemovals_findDoc_ne ss _ s.id
          (fun y hy => fun he => hdis2 y hy he.symm)]
        have hid : removeTagStep tags s = tags := by
          unfold removeTagStep
          rw [if_neg (by omega), if_neg (by omega)]
        rw [hid]
        exact hsnap s (by simp)
    · exact ih (removeTagStep tags s0) (removeTagStep_nodup tags s0 hn) hdis.2 hsnap1 s hs2

theorem createQuestion_tags_cases (db : DB) (s : Sess) (p : CreateQuestionParams) :
    (resultDB db (createQuestion db (some s) p)).tags = db.tags
    ∨ (resultDB db (createQuestion db (some s) p)).tags
      = (processTags p.tags db.tags (db.nextId + 1)).2.1 := by
  cases hval : AskQuestionSchema_parses p
  · left
    simp [resultDB, createQuestion, action, hval]
  · cases hus : s.userId with
    | none =>
      left
      simp [resultDB, createQuestion, action, hval, hus, Option.bind]
    | some u =>
      right
      simp [resultDB, createQuestion, action, hval, hus, Option.bind]

theorem editQuestion_tags_cases (db : DB) (s : Sess) (p : EditQuestionParams) :
    (resultDB db (editQuestion db (some s) p)).tags = db.tags
    ∨ ∃ toAdd : List String, (∀ x ∈ toAdd, x ∈ p.tags.map lowerString)
      ∧ ∃ removeIds : List Nat,
        (resultDB db (editQuestion db (some s) p)).tags
          = processTagRemovals
              ((processTags toAdd db.tags db.nextId).2.1.filter
                (fun t => removeIds.contains t.id))
              (processTags toAdd db.tags db.nextId).2.1 := by
  cases hval : EditQuestionSchema_parses p
  · left
    simp [resultDB, editQuestion, action, hval]
  · cases hfq : findDoc Question.id db.questions p.questionId with
    | none =>
      left
      simp [resultDB, editQuestion, action, hval, hfq, Option.bind]
    | some q =>
      by_cases hauth : s.userId = some q.author
      · right
        refine ⟨(p.tags.map lowerString).filter
            (fun n => !((q.tags.filterMap (fun i => findDoc Tag.id db.tags i)).any
              (fun t => decide (lowerString t.name = n)))),
          fun x hx => List.mem_of_mem_filter hx,
          ((q.tags.filterMap (fun i => findDoc Tag.id db.tags i)).filter
            (fun t => !((p.tags.map lowerString).any
              (fun n => decide (n = lowerString t.name))))).map Tag.id, ?_⟩
        simp [resultDB, editQuestion, action, hval, hfq, hauth, processTagChanges,
          Option.bind]
      · left
        simp [resultDB, editQuestion, action, hval, hfq, hauth, Option.bind]

/-- C5 (amended): the removal loop of editQuestion handles each removed
tag from its snapshot counter as follows — a counter of exactly 0 deletes
the tag outright without decrementing, a positive counter decrements it
(deleting when the pre-decrement counter was 1), and an ALREADY NEGATIVE
counter leaves the tag record completely untouched, so a pre-existing
negative counter persists.  Consequently the defensive floor holds only
from nonnegative states: when every persisted tag counter is nonnegative
before the edit, no tag record with a negative counter remains after
it. -/
theorem C5_amended_removal_policy (db : DB) (s : Sess) (p : EditQuestionParams)
    (hn : (db.tags.map Tag.id).Nodup)
    (hfresh : ∀ i ∈ db.tags.map Tag.id, i < db.nextId)
    (hnn : ∀ x ∈ db.tags, 0 ≤ x.questions) :
    (∀ x ∈ (resultDB db (editQuestion db (some s) p)).tags, 0 ≤ x.questions)
    ∧ (∀ snap tags2 : List Tag, (tags2.map Tag.id).Nodup →
        (snap.map Tag.id).Nodup →
        (∀ s2 ∈ snap, findDoc Tag.id tags2 s2.id = some s2) →
        ∀ s2 ∈ snap,
          (s2.questions = 0 →
            findDoc Tag.id (processTagRemovals snap tags2) s2.id = none)
          ∧ (s2.questions < 0 →
            findDoc Tag.id (processTagRemovals snap tags2) s2.id = some s2)) := by
  refine ⟨?_, fun snap tags2 h1 h2 h3 => processTagRemovals_fates snap tags2 h1 h2 h3⟩
  rcases editQuestion_tags_cases db s p with h | ⟨toAdd, hsub, removeIds, h⟩
  · rw [h]
    exact hnn
  · rw [h]
    have hnf := processTags_nodup_fresh toAdd db.tags db.nextId hn hfresh
    have hnn1 := processTags_mem_nonneg toAdd db.tags db.nextId hnn
    have hdis : ((((processTags toAdd db.tags db.nextId).2.1.filter
        (fun t => removeIds.contains t.id))).map Tag.id).Nodup :=
      hnf.1.sublist ((List.filter_sublist _).map Tag.id)
    have hsnap : ∀ s2 ∈ (processTags toAdd db.tags db.nextId).2.1.filter
        (fun t => removeIds.contains t.id),
        findDoc Tag.id (processTags toAdd db.tags db.nextId).2.1 s2.id = some s2 :=
      fun s2 hs2 => findDoc_of_nodup_mem Tag.id hnf.1 (List.mem_of_mem_filter hs2)
    exact processTagRemovals_nonneg _ _ hnf.1 hsnap hdis hnn1

/-- C5 amended witness: removing a tag whose snapshot counter is exactly
0 deletes it outright, while a tag with counter -1 is left untouched;
and an edit of a question over nonnegative tag counters leaves all
counters nonnegative. -/
theorem C5_amended_removal_policy_witness :
    findDoc Tag.id (processTagRemovals [⟨5, "react", 0⟩] [⟨5, "react", 0⟩]) 5 = none
    ∧ findDoc Tag.id (processTagRemovals [⟨6, "vue", -1⟩] [⟨6, "vue", -1⟩]) 6
      = some ⟨6, "vue", -1⟩
    ∧ (∀ x ∈ (resultDB plainQuestionDB
        (editQuestion plainQuestionDB (some ⟨some 7⟩) ⟨"t", "c", ["x"], 10⟩)).tags,
        0 ≤ x.questions) := by
  have h1 := C5_amended_removal_policy plainQuestionDB ⟨some 7⟩ ⟨"t", "c", ["x"], 10⟩
    (by decide) (by decide) (by decide)
  refine ⟨?_, ?_, h1.1⟩
  · exact ((h1.2 [⟨5, "react", 0⟩] [⟨5, "react", 0⟩] (by decide) (by decide)
      (by decide) ⟨5, "react", 0⟩ (by decide)).1 (by decide))
  · exact ((h1.2 [⟨6, "vue", -1⟩] [⟨6, "vue", -1⟩] (by decide) (by decide)
      (by decide) ⟨6, "vue", -1⟩ (by decide)).2 (by decide))

/-- C7 (amended): a tag newly created by the upsert stores the submitted
name AS PASSED TO THE UPSERT — on the question-create path this is the
caller's original casing; on the question-edit path the submitted names
are lowercased before both the comparison and the upsert, so a tag newly
created there stores the lowercase-normalized name, not the caller's
casing.  Existing tags keep their stored name on both paths. -/
theorem C7_amended_created_tag_names (db : DB) (s : Sess)
    (pc : CreateQuestionParams) (pe : EditQuestionParams)
    (hfresh : ∀ i ∈ db.tags.map Tag.id, i < db.nextId) :
    (∀ t ∈ (resultDB db (createQuestion db (some s) pc)).tags,
      db.nextId ≤ t.id → t.name ∈ pc.tags)
    ∧ (∀ t ∈ (resultDB db (editQuestion db (some s) pe)).tags,
      db.nextId ≤ t.id → ∃ n0 ∈ pe.tags, t.name = lowerString n0) := by
  constructor
  · intro t ht hle
    rcases createQuestion_tags_cases db s pc with h | h
    · rw [h] at ht
      have := hfresh t.id (List.mem_map_of_mem Tag.id ht)
      omega
    · rw [h] at ht
      rcases (processTags_spec pc.tags db.tags (db.nextId + 1)).2 t ht with
        ⟨t0, ht0, hei, _⟩ | ⟨hm, _⟩
      · have := hfresh t0.id (List.mem_map_of_mem Tag.id ht0)
        omega
      · exact hm
  · intro t ht hle
    rcases editQuestion_tags_cases db s pe with h | ⟨toAdd, hsub, removeIds, h⟩
    · rw [h] at ht
      have := hfresh t.id (List.mem_map_of_mem Tag.id ht)
      omega
    · rw [h] at ht
      obtain ⟨t1, ht1, hei, hen⟩ := processTagRemovals_mem _ _ t ht
      rcases (processTags_spec toAdd db.tags db.nextId).2 t1 ht1 with
        ⟨t0, ht0, hei2, _⟩ | ⟨hm, _⟩
      · have := hfresh t0.id (List.mem_map_of_mem Tag.id ht0)
        omega
      · obtain ⟨n0, hn0, hlow⟩ := List.mem_map.mp (hsub t1.name hm)
        exact ⟨n0, hn0, by rw [hen, ← hlow]⟩

/-- C7 amended witness: creating a question with tag "Vue" stores the
name "Vue" verbatim, while editing a question to add tag "TypeScript"
stores a tag whose name is the lowercasing of a submitted name. -/
theorem C7_amended_created_tag_names_witness :
    ((⟨21, "Vue", 1⟩ : Tag).name ∈ (⟨"T", "C", ["Vue"]⟩ : CreateQuestionParams).tags)
    ∧ ∃ n0 ∈ (⟨"t", "c", ["TypeScript"], 10⟩ : EditQuestionParams).tags,
        (⟨20, "typescript", 1⟩ : Tag).name = lowerString n0 := by
  have h := C7_amended_created_tag_names plainQuestionDB ⟨some 7⟩
    ⟨"T", "C", ["Vue"]⟩ ⟨"t", "c", ["TypeScript"], 10⟩ (by decide)
  exact ⟨h.1 ⟨21, "Vue", 1⟩ (by decide) (by decide),
    h.2 ⟨20, "typescript", 1⟩ (by decide) (by decide)⟩

/-- C8 (amended): an editQuestion call by an authenticated user who is
not the question's author fails before any mutation — the returned state
is exactly the initial state — with an error response carrying the
message 'Unauthorized' and the generic status 500 (the code throws a
plain Error, not a ForbiddenError, so the surfaced status is 500 rather
than 403). -/
theorem C8_amended_unauthorized_edit_rejected (db : DB) (u : Nat)
    (p : EditQuestionParams) (q : Question)
    (hval : EditQuestionSchema_parses p = true)
    (hq : findDoc Question.id db.questions p.questionId = some q)
    (hne : u ≠ q.author) :
    editQuestion db (some ⟨some u⟩) p
      = .ok (db, ⟨false, some 500, none, some "Unauthorized"⟩) := by
  have hne2 : (some u : Option Nat) ≠ some q.author := by simpa using hne
  simp [editQuestion, action, hval, hq, hne2, Option.bind, handleError,
    JsError.status, JsError.message]

/-- C8 amended witness: user 9 editing question 10 (authored by user 7)
receives the 500 'Unauthorized' error response and the store is exactly
unchanged. -/
theorem C8_amended_unauthorized_edit_rejected_witness :
    editQuestion plainQuestionDB (some ⟨some 9⟩) ⟨"t2", "c2", ["x"], 10⟩
      = .ok (plainQuestionDB, ⟨false, some 500, none, some "Unauthorized"⟩) :=
  C8_amended_unauthorized_edit_rejected plainQuestionDB 9 ⟨"t2", "c2", ["x"], 10⟩
    ⟨10, "t", "c", 7, [], 0, 0, 0, 0⟩ (by decide) (by decide) (by decide)

/-- C3: the claim says every failure of createQuestion, editQuestion,
createVote and hasVoted — validation, missing session, database error —
is caught at the operation boundary and returned as a structured
`success: false` result, never thrown.  The code contradicts this: the
`action` handler THROWS `UnauthorizedError` / `ValidationError` instead
of returning them, the `await action(...)` call sits outside every
operation's try block, and `createQuestion` additionally throws
`new Error('User not authenticated')` outside its try block; each
operation's `validationResult instanceof Error` conversion branch is
therefore dead code and the failure escapes the boundary as a rejected
promise.  This theorem evaluates the code at the failing inputs: with no
authenticated session each operation rejects instead of returning a
structured result. -/
theorem C3_failure_escapes_boundary :
    createVote exampleDB none ⟨1, .question, .upvote⟩
      = .error (.unauthorized "Unauthorized")
    ∧ hasVoted exampleDB none ⟨1, .question⟩
      = .error (.unauthorized "Unauthorized")
    ∧ editQuestion exampleDB none ⟨"T", "C", ["a"], 1⟩
      = .error (.unauthorized "Unauthorized")
    ∧ createQuestion exampleDB (some ⟨none⟩) ⟨"T", "C", ["a"]⟩
      = .error (.generic "User not authenticated") := by
  decide

/-- C4: creating a question with tag name "JavaScript" when a tag named
"javascript" already exists with usage counter 5 leaves a single tag
"javascript" with counter 6 and creates no second tag: the upsert's
anchored case-insensitive regex matches the existing tag and `$inc`
bumps its counter. -/
theorem C4_case_insensitive_tag_merge :
    (resultDB mergeDB
        (createQuestion mergeDB (some ⟨some 7⟩) ⟨"How", "Body", ["JavaScript"]⟩)).tags
      = [⟨0, "javascript", 6⟩]
    ∧ succeeded
        (createQuestion mergeDB (some ⟨some 7⟩) ⟨"How", "Body", ["JavaScript"]⟩) = true := by
  decide

/-- C9: the claim says hasVoted called with no authenticated session
returns both flags false rather than failing the caller.  The code
contradicts this: `action` (called with `authorize: true`, outside any
try/catch) throws UnauthorizedError, which escapes `hasVoted` as a
rejection; the source's graceful branch returning
`{hasUpvoted: false, hasDownvoted: false}` is dead code because it tests
`validationResult instanceof Error` on a value `action` never returns. -/
theorem C9_hasVoted_rejects_without_session :
    hasVoted exampleDB none ⟨1, .question⟩ = .error (.unauthorized "Unauthorized") := by
  decide

/-- C5 counterexample: editing question 10 from tags `["react"]` to
`["vue"]` while tag "react" has usage counter -1 succeeds, yet the tag
record persists unchanged with its negative counter: the removal loop
only handles `=== 0` (delete) and `> 0` (decrement), so an already
negative counter matches neither branch, contradicting the claim that a
non-positive counter is deleted outright and that no negative-counter
tag remains after a removal. -/
theorem C5_negative_tag_persists :
    succeeded (editQuestion negTagDB (some ⟨some 7⟩) ⟨"t", "c", ["vue"], 10⟩) = true
    ∧ findDoc Tag.id
        (resultDB negTagDB (editQuestion negTagDB (some ⟨some 7⟩) ⟨"t", "c", ["vue"], 10⟩)).tags 5
      = some ⟨5, "react", -1⟩ := by
  decide

/-- C7 counterexample: editing question 10 (no current tags) to tags
`["TypeScript"]` creates the tag with stored name "typescript": the edit
path lowercases the submitted names BEFORE the upsert, so a tag newly
created on the edit path stores the normalized name, not the caller's
original casing. -/
theorem C7_edit_created_tag_lowercased :
    (resultDB plainQuestionDB
        (editQuestion plainQuestionDB (some ⟨some 7⟩) ⟨"t", "c", ["TypeScript"], 10⟩)).tags
      = [⟨20, "typescript", 1⟩]
    ∧ "typescript" ≠ "TypeScript" := by
  decide

/-- C8 counterexample: user 9 (not the author, user 7) editing question
10 receives a generic 500 "Unauthorized" error response — the code throws
`new Error('Unauthorized')`, not a `ForbiddenError`, so the surfaced
status is 500 rather than the ForbiddenError status 403 the claim
requires (the store is nevertheless unchanged). -/
theorem C8_unauthorized_edit_not_forbidden_error :
    editQuestion plainQuestionDB (some ⟨some 9⟩) ⟨"t2", "c2", ["x"], 10⟩
      = .ok (plainQuestionDB, ⟨false, some 500, none, some "Unauthorized"⟩)
    ∧ (500 : Nat) ≠ (JsError.forbidden "Forbidden").status := by
  decide

end DevOverflow
